import Mathlib

/-!
# Wire protocol of cukebins

A shallow embedding of `include/cukebins/internal/connectors/wire/WireProtocol.hpp`:
the JSON values the protocol exchanges, the five commands, the dispatcher
(`invokeCommand`), the fail-safe boundary (`processOneRequest`) and the stream
loop, followed by theorems about them.

Conventions of the embedding.

* A C++ function that may throw returns an `Option`: `none` is "an exception
  was thrown" (every `catch` in the source is `catch (...)`, so the kind of the
  exception is never observed), `some a` is a normal return of `a`.
* Code that touches the engine, the command registry or the stream is a
  function `World σ → Option α × World σ`: the state is passed explicitly and
  survives an exception.
* The execution engine (`CukeCommands`) is not part of the protocol layer; it is
  a parameter, a record of arbitrary state transformers that may throw.
-/

namespace cukebins

/-! ## JSON values (json_spirit `mValue`) -/

/-- A decoded JSON value, json_spirit's `mValue`. A `real` holds the bit
pattern of the double; the protocol never looks at it. An object is a
`std::map`; it is kept as an association list in which the first pair with a
given key is the one the map holds. -/
inductive mValue where
  | null
  | str (s : String)
  | bool (b : Bool)
  | int (i : Int)
  | real (bits : Nat)
  | array (a : List mValue)
  | obj (o : List (String × mValue))

/-- The `mArray` of json_spirit: a vector of values. -/
abbrev mArray := List mValue

/-- The `mObject` of json_spirit: a map from names to values. -/
abbrev mObject := List (String × mValue)

instance : Inhabited mValue := ⟨mValue.null⟩

/-- Embeds `mValue::is_null()`. -/
def mValue.is_null : mValue → Bool
  | .null => true
  | _ => false

/-- Embeds `mValue::get_str()`: throws unless the value is a string. -/
def mValue.get_str : mValue → Option String
  | .str s => some s
  | _ => none

/-- Embeds `mValue::get_array()`: throws unless the value is an array. -/
def mValue.get_array : mValue → Option mArray
  | .array a => some a
  | _ => none

/-- Embeds `mValue::get_obj()`: throws unless the value is an object. -/
def mValue.get_obj : mValue → Option mObject
  | .obj o => some o
  | _ => none

/-! ## `std::map` with string keys -/

/-- Embeds `std::map::find`: the value stored under `k`, if any. -/
def StdMap.find {β : Type} : List (String × β) → String → Option β
  | [], _ => none
  | (k', v) :: m, k => if k' = k then some v else StdMap.find m k

/-- Embeds `std::map::insert(make_pair(k, v))`: adds the pair unless the key is
already there (an existing entry is never overwritten). The list keeps the
order of insertion; a `std::map` iterates in key order, which nothing in the
protocol layer observes. -/
def StdMap.insert {β : Type} (m : List (String × β)) (k : String) (v : β) : List (String × β) :=
  match StdMap.find m k with
  | some _ => m
  | none => m ++ [(k, v)]

/-- Embeds `std::map::operator[]`: the value stored under `k`; when there is
none, a default-constructed value is inserted under `k` first. Returns the
value and the map after the call. -/
def StdMap.subscript {β : Type} (dflt : β) (m : List (String × β)) (k : String) : β × List (String × β) :=
  match StdMap.find m k with
  | some v => (v, m)
  | none => (dflt, StdMap.insert m k dflt)

/-- The value read by `o[k]` on an `mObject` (`null` when the key is absent).
Every object subscripted in the protocol layer is a copy local to the request
and is only ever subscripted again, so the entry `operator[]` may insert is
dropped here; `mObject.subscript_subscript` shows no later read can tell. -/
def mObject.subscript (o : mObject) (k : String) : mValue :=
  (StdMap.subscript mValue.null o k).1

/-! ## Collaborators: step ids, match results, invoke arguments and results -/

/-- The type of step identifiers (`step_id_type` of `StepManager.hpp`). -/
abbrev step_id_type := Nat

/-- The two conversions of `StepManager.hpp` the protocol uses; they are taken
as parameters. `fromString` throws on text that does not parse. -/
structure StepManager where
  toString : step_id_type → String
  fromString : String → Option step_id_type

/-- The step a match refers to (`StepInfo`): only `id` and `source` are read. -/
structure StepInfo where
  id : step_id_type
  source : String

/-- One captured substring and its offset (`RegexSubmatch`). -/
structure RegexSubmatch where
  value : String
  position : Int

/-- One matching step with its submatches (`SingleStepMatch`). -/
structure SingleStepMatch where
  stepInfo : StepInfo
  submatches : List RegexSubmatch

/-- What the engine returns for `stepMatches` (`MatchResult::getResultSet()`). -/
structure MatchResult where
  resultSet : List SingleStepMatch

/-- Modelled from the spec: the `Table` class (its header is not among the
sources). A table is an ordered list of column names and an ordered list of
rows of string cells; decoding does not enforce that a row is as wide as the
header. -/
structure Table where
  columns : List String
  rows : List (List String)
deriving DecidableEq, Repr

/-- Modelled from the spec: `Table::addColumn`, appends a column name. -/
def Table.addColumn (t : Table) (column : String) : Table :=
  { t with columns := t.columns ++ [column] }

/-- Modelled from the spec: `Table::addRow`, appends a row. -/
def Table.addRow (t : Table) (row : List String) : Table :=
  { t with rows := t.rows ++ [row] }

/-- Modelled from the spec: the `InvokeArgs` class (its header is not among
the sources), as `getInvokeArgs` uses it: positional string arguments added by
`addArg`, and the one table that `getVariableTableArg` hands out. -/
structure InvokeArgs where
  args : List String
  tableArg : Table
deriving DecidableEq, Repr

/-- A freshly constructed `InvokeArgs` (`new InvokeArgs`). -/
def InvokeArgs.new : InvokeArgs := { args := [], tableArg := { columns := [], rows := [] } }

/-- Modelled from the spec: `InvokeArgs::addArg`, appends a string argument. -/
def InvokeArgs.addArg (a : InvokeArgs) (arg : String) : InvokeArgs :=
  { a with args := a.args ++ [arg] }

/-- The three outcomes of a step invocation (`InvokeResult::getType()`). -/
inductive InvokeResultType where
  | SUCCESS
  | PENDING
  | FAILURE
deriving DecidableEq, Repr

/-- The result of `invoke`: `getType()` and `getDescription()`. -/
structure InvokeResult where
  type : InvokeResultType
  description : String
deriving DecidableEq, Repr

/-! ## The engine and the world -/

/-- A call made on the engine, with its arguments. -/
inductive EngineCall where
  | beginScenario (tags : List String)
  | endScenario
  | stepMatches (matcher : String)
  | snippetText (stepKeyword stepName : String)
  | invoke (id : step_id_type) (args : InvokeArgs)
deriving DecidableEq, Repr

/-- One entry of the trace: the call and whether the engine threw. -/
structure EngineEvent where
  call : EngineCall
  raised : Bool
deriving DecidableEq, Repr

/-- The execution engine (`CukeCommands`), a parameter of the protocol: each
operation takes the engine state and returns the new state together with its
result, or `none` when it throws. -/
structure CukeCommands (σ : Type) where
  beginScenario : List String → σ → Option Unit × σ
  endScenario : σ → Option Unit × σ
  stepMatches : String → σ → Option MatchResult × σ
  snippetText : String → String → σ → Option String × σ
  invoke : step_id_type → InvokeArgs → σ → Option InvokeResult × σ

/-- The classes derived from `JSONCommand`; a value of this type is the
dynamic type of a command object. -/
inductive JSONCommand where
  | BeginScenarioCommand
  | EndScenarioCommand
  | StepMatchesCommand
  | InvokeCommand
  | SnippetTextCommand
deriving DecidableEq, Repr

/-- The stream: the values `read_stream` will decode, in order, the responses
written so far, and whether the stream still tests true. -/
structure IOStream where
  input : List mValue
  output : List mValue
  good : Bool

/-- Everything the protocol can change: the engine state, the trace of engine
calls, the static `WireProtocol::jsonCommands` map (a null `shared_ptr` is
`none`) and the stream. -/
structure World (σ : Type) where
  engine : σ
  calls : List EngineEvent
  jsonCommands : List (String × Option JSONCommand)
  stream : IOStream

/-- The initial value of `WireProtocol::jsonCommands`. -/
def jsonCommands : List (String × Option JSONCommand) :=
  [("begin_scenario", some JSONCommand.BeginScenarioCommand),
   ("end_scenario", some JSONCommand.EndScenarioCommand),
   ("step_matches", some JSONCommand.StepMatchesCommand),
   ("invoke", some JSONCommand.InvokeCommand),
   ("snippet_text", some JSONCommand.SnippetTextCommand)]

/-- Performs one engine call: the engine state is replaced by the one the
operation returns and the call is appended to the trace. -/
def World.engineCall {σ α : Type} (w : World σ) (c : EngineCall) (r : Option α × σ) :
    Option α × World σ :=
  (r.1, { w with engine := r.2, calls := w.calls ++ [{ call := c, raised := r.1.isNone }] })

/-! ## Response envelopes and the commands -/

/-- Embeds `JSONCommand::success_response()`. -/
def JSONCommand.success_response : mValue :=
  mValue.array ([] ++ [mValue.str "success"])

/-- Embeds `JSONCommand::fail_response()`. -/
def JSONCommand.fail_response : mValue :=
  mValue.array ([] ++ [mValue.str "fail"])

/-- The statement `response.get_array().push_back(x)`: throws when `response`
is not an array. -/
def mValue.push_back (response : mValue) (x : mValue) : Option mValue :=
  match response.get_array with
  | none => none
  | some a => some (mValue.array (a ++ [x]))

/-- A loop `for (j ...) out.push_back(j->get_str())` over a JSON array: the
strings are appended to `out` in order; throws at the first element that is
not a string. -/
def pushStrings : List mValue → List String → Option (List String)
  | [], out => some out
  | j :: rest, out =>
    match j.get_str with
    | none => none
    | some s => pushStrings rest (out ++ [s])

/-- Embeds `BeginScenarioCommand::run`. -/
def BeginScenarioCommand.run {σ : Type} (commands : CukeCommands σ) (jsonArgs : mValue)
    (w : World σ) : Option mValue × World σ :=
  let tags : Option (List String) :=
    if !jsonArgs.is_null then
      match jsonArgs.get_obj with
      | none => none
      | some o =>
        match (mObject.subscript o "tags").get_array with
        | none => none
        | some jsonTags => pushStrings jsonTags []
    else some []
  match tags with
  | none => (none, w)
  | some tags =>
    let called := w.engineCall (EngineCall.beginScenario tags) (commands.beginScenario tags w.engine)
    match called.1 with
    | none => (none, called.2)
    | some _ => (some JSONCommand.success_response, called.2)

/-- The condition of `EndScenarioCommand::run`,
`jsonArgs.is_null() || !jsonArgs.get_obj()["tags"].is_null()`; the right
operand is evaluated only when the left one is false, and throws when the
argument is not an object. -/
def EndScenarioCommand.condition (jsonArgs : mValue) : Option Bool :=
  if jsonArgs.is_null then some true
  else
    match jsonArgs.get_obj with
    | none => none
    | some o => some (!(mObject.subscript o "tags").is_null)

/-- Embeds `EndScenarioCommand::run`. -/
def EndScenarioCommand.run {σ : Type} (commands : CukeCommands σ) (jsonArgs : mValue)
    (w : World σ) : Option mValue × World σ :=
  match EndScenarioCommand.condition jsonArgs with
  | none => (none, w)
  | some true =>
    let called := w.engineCall EngineCall.endScenario (commands.endScenario w.engine)
    match called.1 with
    | none => (none, called.2)
    | some _ => (some JSONCommand.success_response, called.2)
  | some false => (some JSONCommand.fail_response, w)

/-- Embeds `StepMatchesCommand::getStepMatchesMatcher`. -/
def StepMatchesCommand.getStepMatchesMatcher (jsonArgs : mValue) : Option String :=
  match jsonArgs.get_obj with
  | none => none
  | some args => (mObject.subscript args "name_to_match").get_str

/-- The object built for one submatch in `StepMatchesCommand::formatResponse`. -/
def StepMatchesCommand.formatArg (j : RegexSubmatch) : mValue :=
  let arg : mObject := []
  let arg := StdMap.insert arg "val" (mValue.str j.value)
  let arg := StdMap.insert arg "pos" (mValue.int j.position)
  mValue.obj arg

/-- The object built for one match in `StepMatchesCommand::formatResponse`. -/
def StepMatchesCommand.formatMatch (sm : StepManager) (i : SingleStepMatch) : mValue :=
  let match_ : mObject := []
  let stepInfo := i.stepInfo
  let match_ := StdMap.insert match_ "id" (mValue.str (sm.toString stepInfo.id))
  let matchArgs : mArray := i.submatches.foldl (fun acc j => acc ++ [StepMatchesCommand.formatArg j]) []
  let match_ := StdMap.insert match_ "args" (mValue.array matchArgs)
  let match_ := StdMap.insert match_ "source" (mValue.str stepInfo.source)
  mValue.obj match_

/-- Embeds `StepMatchesCommand::formatResponse`. -/
def StepMatchesCommand.formatResponse (sm : StepManager) (matchResult : MatchResult) :
    Option mValue :=
  let response := JSONCommand.success_response
  let resultSet := matchResult.resultSet
  let matches_ : mArray :=
    resultSet.foldl (fun acc i => acc ++ [StepMatchesCommand.formatMatch sm i]) []
  response.push_back (mValue.array matches_)

/-- Embeds `StepMatchesCommand::run`. -/
def StepMatchesCommand.run {σ : Type} (sm : StepManager) (commands : CukeCommands σ)
    (jsonArgs : mValue) (w : World σ) : Option mValue × World σ :=
  match StepMatchesCommand.getStepMatchesMatcher jsonArgs with
  | none => (none, w)
  | some matcher =>
    let called := w.engineCall (EngineCall.stepMatches matcher) (commands.stepMatches matcher w.engine)
    match called.1 with
    | none => (none, called.2)
    | some matchResult => (StepMatchesCommand.formatResponse sm matchResult, called.2)

/-- Embeds `SnippetTextCommand::formatResponse`. -/
def SnippetTextCommand.formatResponse (snippetText : String) : Option mValue :=
  let response := JSONCommand.success_response
  response.push_back (mValue.str snippetText)

/-- Embeds `SnippetTextCommand::run`. -/
def SnippetTextCommand.run {σ : Type} (commands : CukeCommands σ) (jsonArgs : mValue)
    (w : World σ) : Option mValue × World σ :=
  match jsonArgs.get_obj with
  | none => (none, w)
  | some args =>
    match (mObject.subscript args "step_keyword").get_str with
    | none => (none, w)
    | some stepKeyword =>
      match (mObject.subscript args "step_name").get_str with
      | none => (none, w)
      | some stepName =>
        let called := w.engineCall (EngineCall.snippetText stepKeyword stepName)
            (commands.snippetText stepKeyword stepName w.engine)
        match called.1 with
        | none => (none, called.2)
        | some text => (SnippetTextCommand.formatResponse text, called.2)

/-- Embeds `InvokeCommand::getInvokeId`. -/
def InvokeCommand.getInvokeId (sm : StepManager) (jsonArgs : mValue) : Option step_id_type :=
  match jsonArgs.get_obj with
  | none => none
  | some o =>
    match (mObject.subscript o "id").get_str with
    | none => none
    | some idString => sm.fromString idString

/-- The header loop of `InvokeCommand::fillTableArg`: `addColumn` for each
cell of the first row; throws at the first cell that is not a string. -/
def InvokeCommand.fillTableArg.columns : List mValue → Table → Option Table
  | [], tableArg => some tableArg
  | j :: rest, tableArg =>
    match j.get_str with
    | none => none
    | some column => InvokeCommand.fillTableArg.columns rest (tableArg.addColumn column)

/-- The outer loop of `InvokeCommand::fillTableArg`; `first` is the test
`i == tableArray.begin()`. -/
def InvokeCommand.fillTableArg.loop : Bool → List mValue → Table → Option Table
  | _, [], tableArg => some tableArg
  | first, i :: rest, tableArg =>
    match i.get_array with
    | none => none
    | some rowArray =>
      if first then
        match InvokeCommand.fillTableArg.columns rowArray tableArg with
        | none => none
        | some tableArg1 => InvokeCommand.fillTableArg.loop false rest tableArg1
      else
        match pushStrings rowArray [] with
        | none => none
        | some row => InvokeCommand.fillTableArg.loop false rest (tableArg.addRow row)

/-- Embeds `InvokeCommand::fillTableArg`: the table after the call, or `none` when
the call throws. -/
def InvokeCommand.fillTableArg (tableArg : Table) (tableArray : mArray) : Option Table :=
  InvokeCommand.fillTableArg.loop true tableArray tableArg

/-- The loop of `InvokeCommand::getInvokeArgs`. The `try` block is
`get_str` followed by `addArg`; the handler runs when it throws and decodes
the element as a table into the one table of `args`. -/
def InvokeCommand.getInvokeArgs.loop : List mValue → InvokeArgs → Option InvokeArgs
  | [], args => some args
  | i :: rest, args =>
    match (i.get_str).map args.addArg with
    | some args1 => InvokeCommand.getInvokeArgs.loop rest args1
    | none =>
      match i.get_array with
      | none => none
      | some tableArray =>
        match InvokeCommand.fillTableArg args.tableArg tableArray with
        | none => none
        | some tableArg1 => InvokeCommand.getInvokeArgs.loop rest { args with tableArg := tableArg1 }

/-- Embeds `InvokeCommand::getInvokeArgs`. -/
def InvokeCommand.getInvokeArgs (jsonArgs : mValue) : Option InvokeArgs :=
  let args := InvokeArgs.new
  match jsonArgs.get_obj with
  | none => none
  | some o =>
    match (mObject.subscript o "args").get_array with
    | none => none
    | some argsArray => InvokeCommand.getInvokeArgs.loop argsArray args

/-- Embeds `InvokeCommand::formatResponse`. -/
def InvokeCommand.formatResponse (result : InvokeResult) : mValue :=
  let a : mArray := []
  match result.type with
  | InvokeResultType.SUCCESS => mValue.array (a ++ [mValue.str "success"])
  | InvokeResultType.PENDING =>
    let a := a ++ [mValue.str "pending"]
    if !result.description.isEmpty then mValue.array (a ++ [mValue.str result.description])
    else mValue.array a
  | InvokeResultType.FAILURE =>
    let failSpecs : mObject := []
    let a := a ++ [mValue.str "fail"]
    let failSpecs := StdMap.insert failSpecs "message" (mValue.str result.description)
    mValue.array (a ++ [mValue.obj failSpecs])

/-- Embeds `InvokeCommand::run`. -/
def InvokeCommand.run {σ : Type} (sm : StepManager) (commands : CukeCommands σ)
    (jsonArgs : mValue) (w : World σ) : Option mValue × World σ :=
  match InvokeCommand.getInvokeId sm jsonArgs with
  | none => (none, w)
  | some id =>
    match InvokeCommand.getInvokeArgs jsonArgs with
    | none => (none, w)
    | some spArgs =>
      let called := w.engineCall (EngineCall.invoke id spArgs) (commands.invoke id spArgs w.engine)
      match called.1 with
      | none => (none, called.2)
      | some result => (some (InvokeCommand.formatResponse result), called.2)

/-- The virtual call `requestedCommand->run(args)`. -/
def JSONCommand.run {σ : Type} (sm : StepManager) (commands : CukeCommands σ) :
    JSONCommand → mValue → World σ → Option mValue × World σ
  | JSONCommand.BeginScenarioCommand => BeginScenarioCommand.run commands
  | JSONCommand.EndScenarioCommand => EndScenarioCommand.run commands
  | JSONCommand.StepMatchesCommand => StepMatchesCommand.run sm commands
  | JSONCommand.InvokeCommand => InvokeCommand.run sm commands
  | JSONCommand.SnippetTextCommand => SnippetTextCommand.run commands

/-! ## The dispatcher and the stream -/

/-- Embeds `WireProtocol::invokeCommand`. The lookup `jsonCommands[commandName]` is
`operator[]` on the static map, so the map after the call is part of the
world. -/
def WireProtocol.invokeCommand {σ : Type} (sm : StepManager) (commands : CukeCommands σ)
    (decodedRequestValue : mValue) (w : World σ) : Option mValue × World σ :=
  match decodedRequestValue.get_array with
  | none => (none, w)
  | some decodedRequest =>
    if decodedRequest.length > 0 then
      match (decodedRequest.getD 0 mValue.null).get_str with
      | none => (none, w)
      | some commandName =>
        let looked := StdMap.subscript none w.jsonCommands commandName
        let w1 := { w with jsonCommands := looked.2 }
        match looked.1 with
        | some requestedCommand =>
          let args := if decodedRequest.length > 1 then decodedRequest.getD 1 mValue.null
            else mValue.null
          JSONCommand.run sm commands requestedCommand args w1
        | none => (some JSONCommand.fail_response, w1)
    else (some JSONCommand.fail_response, w)

/-- Embeds `json_spirit::read_stream`: decodes the next value of the stream; when
there is none the value stays null and the stream stops testing true. -/
def read_stream (stream : IOStream) : mValue × IOStream :=
  if stream.good then
    match stream.input with
    | v :: rest => (v, { stream with input := rest })
    | [] => (mValue.null, { stream with good := false })
  else (mValue.null, stream)

/-- Embeds `json_spirit::write_stream` followed by the end of line and the flush:
one more response on the stream. -/
def write_stream (response : mValue) (stream : IOStream) : IOStream :=
  { stream with output := stream.output ++ [response] }

/-- The world once `read_stream` has been called on its stream. -/
def World.afterRead {σ : Type} (w : World σ) : World σ :=
  { w with stream := (read_stream w.stream).2 }

/-- A block `try { body } catch (...) { handler }`: the handler runs, in the
world the body left, exactly when the body throws. -/
def tryCatch {σ α : Type} (body handler : World σ → Option α × World σ) (w : World σ) :
    Option α × World σ :=
  let tried := body w
  match tried.1 with
  | some a => (some a, tried.2)
  | none => handler tried.2

/-- Embeds `WireProtocol::processOneRequest`. -/
def WireProtocol.processOneRequest {σ : Type} (sm : StepManager) (commands : CukeCommands σ)
    (w : World σ) : Option Unit × World σ :=
  let decodedRequestValue := (read_stream w.stream).1
  let w1 := w.afterRead
  if decodedRequestValue.is_null then (some (), w1)
  else
    let handled := tryCatch (WireProtocol.invokeCommand sm commands decodedRequestValue)
      (fun w2 => (some JSONCommand.fail_response, w2)) w1
    match handled.1 with
    | none => (none, handled.2)
    | some response =>
      (some (), { handled.2 with stream := write_stream response handled.2.stream })

/-- Embeds `WireProtocol::processStream`, the loop
`while (stream) processOneRequest(stream)`. The loop need not end by
construction, so it is run on fuel: the result is `none` when the fuel runs
out before the stream stops testing true. -/
def WireProtocol.processStream {σ : Type} (sm : StepManager) (commands : CukeCommands σ) :
    Nat → World σ → Option (Option Unit × World σ)
  | 0, _ => none
  | fuel + 1, w =>
    if w.stream.good then
      let handled := WireProtocol.processOneRequest sm commands w
      match handled.1 with
      | none => some (none, handled.2)
      | some _ => WireProtocol.processStream sm commands fuel handled.2
    else some (some (), w)

/-! ## Predicates and sample data used by the statements -/

/-- The registry answers every lookup as the initial `jsonCommands` does: the
five command names give their command objects, any other name gives a null
pointer (whether or not an earlier lookup left an entry for it). -/
def RegistryIntact (m : List (String × Option JSONCommand)) : Prop :=
  ∀ s : String, (StdMap.subscript none m s).1 = (StdMap.subscript none jsonCommands s).1

/-- The optional second element of a request array whose first element has
been removed: the argument value handed to `run`. -/
def argumentOf (rest : List mValue) : mValue :=
  match rest with
  | [] => mValue.null
  | a :: _ => a

/-- A response is status tagged when it is a non-empty array whose first
element is one of the strings `success`, `fail`, `pending`. -/
def StatusTagged (response : mValue) : Prop :=
  ∃ (tag : String) (payload : List mValue),
    response = mValue.array (mValue.str tag :: payload) ∧
      (tag = "success" ∨ tag = "fail" ∨ tag = "pending")

/-- The wire encoding of a table: the header row followed by the data rows,
every cell a JSON string. -/
def encodeTable (columns : List String) (rows : List (List String)) : mValue :=
  mValue.array
    (mValue.array (columns.map mValue.str) ::
      rows.map (fun row => mValue.array (row.map mValue.str)))

/-- A sample step manager: ids are written in decimal, and the two ids
`"1"` and `"2"` parse. -/
def sampleStepManager : StepManager where
  toString := fun n => Nat.repr n
  fromString := fun s => if s = "1" then some 1 else if s = "2" then some 2 else none

/-- A sample engine that never throws; its state counts the calls. -/
def sampleEngine : CukeCommands Nat where
  beginScenario := fun _ n => (some (), n + 1)
  endScenario := fun n => (some (), n + 1)
  stepMatches := fun matcher n =>
    (some { resultSet :=
        if matcher = "I have 3 cukes" then
          [{ stepInfo := { id := 1, source := "steps.cpp:7" },
             submatches := [{ value := "3", position := 7 }] }]
        else [] }, n + 1)
  snippetText := fun stepKeyword stepName n => (some (stepKeyword ++ " " ++ stepName), n + 1)
  invoke := fun id _ n =>
    (some (if id = 1 then { type := InvokeResultType.SUCCESS, description := "" }
      else { type := InvokeResultType.FAILURE, description := "boom" }), n + 1)

/-- A sample engine whose every operation throws. -/
def throwingEngine : CukeCommands Nat where
  beginScenario := fun _ n => (none, n + 1)
  endScenario := fun n => (none, n + 1)
  stepMatches := fun _ n => (none, n + 1)
  snippetText := fun _ _ n => (none, n + 1)
  invoke := fun _ _ n => (none, n + 1)

/-- A fresh world whose stream will deliver the given decoded values. -/
def sampleWorld (input : List mValue) : World Nat where
  engine := 0
  calls := []
  jsonCommands := jsonCommands
  stream := { input := input, output := [], good := true }

/-- The explicit tagged check on one element of the `args` array, as the
design notes describe it: a string is added as a string argument, an array is
decoded as a table into the one table of `args`, anything else fails. -/
def getInvokeArgsTagged.loop : List mValue → InvokeArgs → Option InvokeArgs
  | [], args => some args
  | mValue.str arg :: rest, args => getInvokeArgsTagged.loop rest (args.addArg arg)
  | mValue.array tableArray :: rest, args =>
    match InvokeCommand.fillTableArg args.tableArg tableArray with
    | none => none
    | some tableArg1 => getInvokeArgsTagged.loop rest { args with tableArg := tableArg1 }
  | _ :: _, _ => none

/-- The decoder of the `args` field that inspects the JSON type of each
element instead of catching the failure of `get_str`. -/
def getInvokeArgsTagged (jsonArgs : mValue) : Option InvokeArgs :=
  match jsonArgs with
  | mValue.obj o =>
    match mObject.subscript o "args" with
    | mValue.array argsArray => getInvokeArgsTagged.loop argsArray InvokeArgs.new
    | _ => none
  | _ => none

/-- One element of a well-formed `args` array: a string argument, or a table
given by its header row and its data rows. -/
inductive InvokeArg where
  | string (s : String)
  | table (columns : List String) (rows : List (List String))
deriving DecidableEq, Repr

/-- The wire encoding of one element of the `args` array. -/
def InvokeArg.encode : InvokeArg → mValue
  | InvokeArg.string s => mValue.str s
  | InvokeArg.table columns rows => encodeTable columns rows

/-- The string elements, in order. -/
def InvokeArg.strings : List InvokeArg → List String
  | [] => []
  | InvokeArg.string s :: l => s :: InvokeArg.strings l
  | InvokeArg.table _ _ :: l => InvokeArg.strings l

/-- The header rows of the table elements, concatenated in order. -/
def InvokeArg.allColumns : List InvokeArg → List String
  | [] => []
  | InvokeArg.string _ :: l => InvokeArg.allColumns l
  | InvokeArg.table columns _ :: l => columns ++ InvokeArg.allColumns l

/-- The data rows of the table elements, concatenated in order. -/
def InvokeArg.allRows : List InvokeArg → List (List String)
  | [] => []
  | InvokeArg.string _ :: l => InvokeArg.allRows l
  | InvokeArg.table _ rows :: l => rows ++ InvokeArg.allRows l

/-- A JSON array all of whose elements are strings. -/
def StringArray (v : mValue) : Prop :=
  ∃ ts : List String, v = mValue.array (ts.map mValue.str)

/-- A JSON array all of whose elements are arrays of strings. -/
def TableArray (v : mValue) : Prop :=
  ∃ rows : List (List String),
    v = mValue.array (rows.map (fun row => mValue.array (row.map mValue.str)))

/-- The argument errors of the recognised commands: a required field is
missing or has the wrong JSON type. For `begin_scenario`, a non-null argument
whose `tags` is not an array of strings; for `step_matches`, no string
`name_to_match`; for `snippet_text`, no string `step_keyword` or no string
`step_name`; for `invoke`, no string `id` that parses to a step id, or no
`args` array, or an `args` element that is neither a string nor an array of
arrays of strings. An argument that is not an object has none of the
fields. -/
def ArgumentError (sm : StepManager) : JSONCommand → mValue → Prop
  | JSONCommand.BeginScenarioCommand, args =>
    args ≠ mValue.null ∧ ∀ o, args = mValue.obj o → ¬ StringArray (mObject.subscript o "tags")
  | JSONCommand.EndScenarioCommand, _ => False
  | JSONCommand.StepMatchesCommand, args =>
    ∀ o, args = mValue.obj o → ∀ p, mObject.subscript o "name_to_match" ≠ mValue.str p
  | JSONCommand.SnippetTextCommand, args =>
    ∀ o, args = mValue.obj o →
      (∀ k, mObject.subscript o "step_keyword" ≠ mValue.str k) ∨
      (∀ n, mObject.subscript o "step_name" ≠ mValue.str n)
  | JSONCommand.InvokeCommand, args =>
    ∀ o, args = mValue.obj o →
      (∀ s id, mObject.subscript o "id" = mValue.str s → sm.fromString s ≠ some id) ∨
      (∀ a, mObject.subscript o "args" ≠ mValue.array a) ∨
      (∃ a, mObject.subscript o "args" = mValue.array a ∧
        ∃ e, e ∈ a ∧ (∀ s, e ≠ mValue.str s) ∧ ¬ TableArray e)

/-- The world after the dispatcher has handled the given requests one after
another, each in the world the previous one left. -/
def WireProtocol.dispatchAll {σ : Type} (sm : StepManager) (commands : CukeCommands σ) :
    List mValue → World σ → World σ
  | [], w => w
  | q :: qs, w =>
    WireProtocol.dispatchAll sm commands qs (WireProtocol.invokeCommand sm commands q w).2

/-- The response the fail-safe boundary gives to a request: the value
`invokeCommand` returns, or `["fail"]` when it throws. -/
def WireProtocol.responseTo {σ : Type} (sm : StepManager) (commands : CukeCommands σ)
    (q : mValue) (w : World σ) : mValue :=
  (WireProtocol.invokeCommand sm commands q w).1.getD JSONCommand.fail_response

/-- The responses of the dispatcher to the given requests, in order, each
request being handled in the world the previous one left. -/
def WireProtocol.responses {σ : Type} (sm : StepManager) (commands : CukeCommands σ) :
    List mValue → World σ → List mValue
  | [], _ => []
  | q :: qs, w =>
    WireProtocol.responseTo sm commands q w ::
      WireProtocol.responses sm commands qs (WireProtocol.invokeCommand sm commands q w).2

/-- The engine gives the same answers in the states `e1` and `e2`: every
operation, on every argument, returns the same result or throws in both. -/
def SameAnswers {σ : Type} (commands : CukeCommands σ) (e1 e2 : σ) : Prop :=
  (∀ tags, (commands.beginScenario tags e1).1 = (commands.beginScenario tags e2).1) ∧
  (commands.endScenario e1).1 = (commands.endScenario e2).1 ∧
  (∀ matcher, (commands.stepMatches matcher e1).1 = (commands.stepMatches matcher e2).1) ∧
  (∀ stepKeyword stepName,
    (commands.snippetText stepKeyword stepName e1).1 =
      (commands.snippetText stepKeyword stepName e2).1) ∧
  (∀ id args, (commands.invoke id args e1).1 = (commands.invoke id args e2).1)

/-- A sample engine whose `beginScenario` throws after moving the engine on,
and whose snippet text tells whether the engine has moved. -/
def moodyEngine : CukeCommands Nat where
  beginScenario := fun _ n => (none, n + 1)
  endScenario := fun n => (some (), n)
  stepMatches := fun _ n => (some { resultSet := [] }, n)
  snippetText := fun _ _ n => (some (if n = 0 then "fresh" else "stale"), n)
  invoke := fun _ _ n => (some { type := InvokeResultType.SUCCESS, description := "" }, n)

/-- A request that is answered before any engine operation is reached: its
envelope is malformed (not an array whose first element is a string), or its
command name gets a null pointer from the registry, or it names a registered
command and its argument has an argument error. -/
def RejectedRequest (sm : StepManager) (registry : List (String × Option JSONCommand))
    (q : mValue) : Prop :=
  (∀ (s : String) (tl : List mValue), q ≠ mValue.array (mValue.str s :: tl)) ∨
  ∃ (s : String) (tl : List mValue), q = mValue.array (mValue.str s :: tl) ∧
    ((StdMap.subscript none registry s).1 = none ∨
      ∃ cmd, (StdMap.subscript none registry s).1 = some cmd ∧
        ArgumentError sm cmd (argumentOf tl))

/-! ## Auxiliary lemmas -/

theorem foldl_push_back {α β : Type} (f : α → β) (l : List α) (init : List β) :
    l.foldl (fun acc x => acc ++ [f x]) init = init ++ l.map f := by
  induction l generalizing init with
  | nil => simp
  | cons x xs ih => simp [ih]

theorem pushStrings_map_str (ts : List String) (out : List String) :
    pushStrings (ts.map mValue.str) out = some (out ++ ts) := by
  induction ts generalizing out with
  | nil => simp [pushStrings]
  | cons t ts ih => simp [pushStrings, mValue.get_str, ih]

theorem StdMap.find_insert {β : Type} (m : List (String × β)) (k k' : String) (v : β) :
    StdMap.find (StdMap.insert m k v) k' =
      match StdMap.find m k' with
      | some x => some x
      | none => if k = k' then some v else none := by
  have happ : ∀ (l : List (String × β)),
      StdMap.find (l ++ [(k, v)]) k' =
        match StdMap.find l k' with
        | some x => some x
        | none => if k = k' then some v else none := by
    intro l
    induction l with
    | nil => simp [StdMap.find]
    | cons p l ih =>
      obtain ⟨a, b⟩ := p
      by_cases h : a = k'
      · simp [StdMap.find, h]
      · simp [StdMap.find, h, ih]
  unfold StdMap.insert
  cases hk : StdMap.find m k with
  | some x =>
    simp only
    cases hk' : StdMap.find m k' with
    | some y => rfl
    | none =>
      have : k ≠ k' := by
        intro e; rw [e] at hk; rw [hk] at hk'; cases hk'
      simp [this]
  | none => simpa using happ m

/-- A later read of an object cannot tell whether an earlier `operator[]`
inserted a null entry. -/
theorem mObject.subscript_subscript (o : mObject) (k k' : String) :
    mObject.subscript (StdMap.subscript mValue.null o k).2 k' = mObject.subscript o k' := by
  unfold mObject.subscript StdMap.subscript
  cases hk : StdMap.find o k with
  | some x => simp
  | none =>
    simp only [StdMap.find_insert]
    cases hk' : StdMap.find o k' with
    | some y => simp
    | none =>
      by_cases h : k = k'
      · simp [h]
      · simp [h]

theorem RegistryIntact_initial : RegistryIntact jsonCommands := fun _ => rfl

/-- Looking a name up, as the dispatcher does, keeps the registry intact. -/
theorem RegistryIntact_subscript (m : List (String × Option JSONCommand)) (k : String)
    (h : RegistryIntact m) : RegistryIntact (StdMap.subscript none m k).2 := by
  intro s
  rw [← h s]
  unfold StdMap.subscript
  cases hk : StdMap.find m k with
  | some x => simp
  | none =>
    simp only [StdMap.find_insert]
    cases hs : StdMap.find m s with
    | some y => simp
    | none =>
      by_cases e : k = s
      · simp [e]
      · simp [e]

/-- What a command may change: never the registry or the stream, and the
trace by at most one call, which raised only if the command threw. -/
theorem JSONCommand.run_frame {σ : Type} (sm : StepManager) (commands : CukeCommands σ)
    (cmd : JSONCommand) (args : mValue) (w : World σ) :
    (JSONCommand.run sm commands cmd args w).2.jsonCommands = w.jsonCommands ∧
    (JSONCommand.run sm commands cmd args w).2.stream = w.stream ∧
    ((JSONCommand.run sm commands cmd args w).2 = w ∨
      ∃ ev, (JSONCommand.run sm commands cmd args w).2.calls = w.calls ++ [ev] ∧
        (ev.raised = true → (JSONCommand.run sm commands cmd args w).1 = none)) := by
  cases cmd <;>
    simp only [JSONCommand.run, BeginScenarioCommand.run, EndScenarioCommand.run,
      StepMatchesCommand.run, InvokeCommand.run, SnippetTextCommand.run, World.engineCall] <;>
    (repeat' split) <;> simp_all

theorem JSONCommand.run_frame_from {σ : Type} (sm : StepManager) (commands : CukeCommands σ)
    (cmd : JSONCommand) (args : mValue) (w1 w : World σ)
    (hs : w1.stream = w.stream) (hc : w1.calls = w.calls) (he : w1.engine = w.engine) :
    (JSONCommand.run sm commands cmd args w1).2.stream = w.stream ∧
    (((JSONCommand.run sm commands cmd args w1).2.calls = w.calls ∧
        (JSONCommand.run sm commands cmd args w1).2.engine = w.engine) ∨
      ∃ ev, (JSONCommand.run sm commands cmd args w1).2.calls = w.calls ++ [ev] ∧
        (ev.raised = true → (JSONCommand.run sm commands cmd args w1).1 = none)) := by
  obtain ⟨_, h2, h3⟩ := JSONCommand.run_frame sm commands cmd args w1
  refine ⟨h2.trans hs, ?_⟩
  rcases h3 with h3 | ⟨ev, h3, h4⟩
  · left; rw [h3]; exact ⟨hc, he⟩
  · right; exact ⟨ev, by rw [h3, hc], h4⟩

/-- What the dispatcher may change: never the stream, and the trace by at most
one call, which raised only if the dispatcher threw. -/
theorem WireProtocol.invokeCommand_frame {σ : Type} (sm : StepManager)
    (commands : CukeCommands σ) (v : mValue) (w : World σ) :
    (WireProtocol.invokeCommand sm commands v w).2.stream = w.stream ∧
    (((WireProtocol.invokeCommand sm commands v w).2.calls = w.calls ∧
        (WireProtocol.invokeCommand sm commands v w).2.engine = w.engine) ∨
      ∃ ev, (WireProtocol.invokeCommand sm commands v w).2.calls = w.calls ++ [ev] ∧
        (ev.raised = true → (WireProtocol.invokeCommand sm commands v w).1 = none)) := by
  unfold WireProtocol.invokeCommand
  split
  · simp
  · split
    · split
      · simp
      · simp only
        split
        · exact JSONCommand.run_frame_from sm commands _ _ _ w rfl rfl rfl
        · simp
    · simp

/-- The fail-safe boundary as an equation: on a non-null decoded value the
call returns normally and writes the response of `invokeCommand`, or
`["fail"]` when `invokeCommand` threw. -/
theorem WireProtocol.processOneRequest_eq {σ : Type} (sm : StepManager)
    (commands : CukeCommands σ) (w : World σ) (v : mValue) (rest : List mValue)
    (hgood : w.stream.good = true) (hin : w.stream.input = v :: rest)
    (hv : v ≠ mValue.null) :
    WireProtocol.processOneRequest sm commands w =
      (some (),
        { (WireProtocol.invokeCommand sm commands v w.afterRead).2 with
          stream := write_stream
            ((WireProtocol.invokeCommand sm commands v w.afterRead).1.getD
              JSONCommand.fail_response)
            (WireProtocol.invokeCommand sm commands v w.afterRead).2.stream }) := by
  have hnull : v.is_null = false := by
    cases v <;> simp [mValue.is_null] at hv ⊢
  have hread : (read_stream w.stream).1 = v := by simp [read_stream, hgood, hin]
  simp only [WireProtocol.processOneRequest, hread, hnull, tryCatch]
  cases (WireProtocol.invokeCommand sm commands v w.afterRead).1 <;> simp

theorem StdMap.subscript_some {β : Type} (m : List (String × Option β)) (k : String) (c : β)
    (h : (StdMap.subscript none m k).1 = some c) : (StdMap.subscript none m k).2 = m := by
  unfold StdMap.subscript at h ⊢
  cases hk : StdMap.find m k with
  | some x => simp
  | none => simp [hk] at h

/-- C4: `InvokeCommand::formatResponse` gives `["success"]` for SUCCESS,
`["pending"]` for PENDING with an empty description and `["pending", d]` for
PENDING with the non-empty description `d`, and `["fail", {"message": d}]`,
an object with the single key `message`, for FAILURE with any description
`d`, the empty one included. -/
theorem InvokeCommand_formatResponse_cases (r : InvokeResult) :
    InvokeCommand.formatResponse r =
      match r.type with
      | InvokeResultType.SUCCESS => mValue.array [mValue.str "success"]
      | InvokeResultType.PENDING =>
        if r.description = "" then mValue.array [mValue.str "pending"]
        else mValue.array [mValue.str "pending", mValue.str r.description]
      | InvokeResultType.FAILURE =>
        mValue.array [mValue.str "fail", mValue.obj [("message", mValue.str r.description)]] := by
  obtain ⟨t, d⟩ := r
  cases t
  · simp [InvokeCommand.formatResponse]
  · by_cases h : d = ""
    · have h' : d.isEmpty = true := (String.isEmpty_iff d).2 h
      simp only [InvokeCommand.formatResponse, h', if_pos h]
      simp
    · have h' : d.isEmpty = false := by
        cases hd : d.isEmpty with
        | false => rfl
        | true => exact absurd ((String.isEmpty_iff d).1 hd) h
      simp [InvokeCommand.formatResponse, h, h']
  · simp [InvokeCommand.formatResponse, StdMap.insert, StdMap.find]

/-- C6: `begin_scenario` with the argument `{"tags": ts}`, for any list of
strings `ts`, calls the engine's `beginScenario` exactly once, with `ts`
itself, and answers `["success"]` when that call returns; with a null (or
absent) argument the engine receives the empty tag list. -/
theorem BeginScenarioCommand_run_tags {σ : Type} (commands : CukeCommands σ) (w : World σ)
    (ts : List String) :
    BeginScenarioCommand.run commands
        (mValue.obj [("tags", mValue.array (ts.map mValue.str))]) w =
      ((commands.beginScenario ts w.engine).1.map
          (fun _ => mValue.array [mValue.str "success"]),
        { w with
          engine := (commands.beginScenario ts w.engine).2,
          calls := w.calls ++
            [{ call := EngineCall.beginScenario ts,
               raised := (commands.beginScenario ts w.engine).1.isNone }] }) ∧
    BeginScenarioCommand.run commands mValue.null w =
      ((commands.beginScenario [] w.engine).1.map
          (fun _ => mValue.array [mValue.str "success"]),
        { w with
          engine := (commands.beginScenario [] w.engine).2,
          calls := w.calls ++
            [{ call := EngineCall.beginScenario [],
               raised := (commands.beginScenario [] w.engine).1.isNone }] }) := by
  constructor
  · have hobj : (mValue.obj [("tags", mValue.array (ts.map mValue.str))]).is_null = false := rfl
    have hsub : mObject.subscript [("tags", mValue.array (ts.map mValue.str))] "tags" =
        mValue.array (ts.map mValue.str) := by
      simp [mObject.subscript, StdMap.subscript, StdMap.find]
    simp only [BeginScenarioCommand.run, hobj, mValue.get_obj, hsub, mValue.get_array,
      pushStrings_map_str, World.engineCall]
    cases h : (commands.beginScenario ts w.engine).1 <;>
      simp [JSONCommand.success_response, h]
  · have hnull : (mValue.null).is_null = true := rfl
    simp only [BeginScenarioCommand.run, hnull, World.engineCall]
    cases h : (commands.beginScenario [] w.engine).1 <;>
      simp [JSONCommand.success_response, h]

/-- C7: when the argument object has the string `p` under `name_to_match` and
the engine returns the match result `m` for `p`, `step_matches` answers
`["success", L]`, where `L` lists one object per match of `m`, in the order of
`m`: `id` is the step id rendered as a string, `args` the list of
`{"val": value, "pos": position}` objects of the submatches in their order,
`source` the source of the step. The engine is called exactly once, with
`p`. -/
theorem StepMatchesCommand_run_response {σ : Type} (sm : StepManager)
    (commands : CukeCommands σ) (w : World σ) (o : mObject) (p : String) (m : MatchResult)
    (hp : mObject.subscript o "name_to_match" = mValue.str p)
    (hm : (commands.stepMatches p w.engine).1 = some m) :
    StepMatchesCommand.run sm commands (mValue.obj o) w =
      (some (mValue.array [mValue.str "success",
          mValue.array (m.resultSet.map (fun i =>
            mValue.obj [("id", mValue.str (sm.toString i.stepInfo.id)),
              ("args", mValue.array (i.submatches.map (fun j =>
                mValue.obj [("val", mValue.str j.value), ("pos", mValue.int j.position)]))),
              ("source", mValue.str i.stepInfo.source)]))]),
        { w with
          engine := (commands.stepMatches p w.engine).2,
          calls := w.calls ++ [{ call := EngineCall.stepMatches p, raised := false }] }) := by
  have hfmt : ∀ i : SingleStepMatch, StepMatchesCommand.formatMatch sm i =
      mValue.obj [("id", mValue.str (sm.toString i.stepInfo.id)),
        ("args", mValue.array (i.submatches.map (fun j =>
          mValue.obj [("val", mValue.str j.value), ("pos", mValue.int j.position)]))),
        ("source", mValue.str i.stepInfo.source)] := by
    intro i
    simp [StepMatchesCommand.formatMatch, StepMatchesCommand.formatArg, foldl_push_back,
      StdMap.insert, StdMap.find]
  simp only [StepMatchesCommand.run, StepMatchesCommand.getStepMatchesMatcher, mValue.get_obj,
    hp, mValue.get_str, World.engineCall, hm]
  simp [StepMatchesCommand.formatResponse, foldl_push_back, hfmt, mValue.push_back,
    JSONCommand.success_response, mValue.get_array]

/-- Witness for C7: the sample engine knows one step matching
`I have 3 cukes`, with one submatch. -/
theorem StepMatchesCommand_run_response_witness :
    StepMatchesCommand.run sampleStepManager sampleEngine
        (mValue.obj [("name_to_match", mValue.str "I have 3 cukes")]) (sampleWorld []) =
      (some (mValue.array [mValue.str "success",
          mValue.array
            (({ resultSet :=
                [{ stepInfo := { id := 1, source := "steps.cpp:7" },
                   submatches := [{ value := "3", position := 7 }] }] } :
                MatchResult).resultSet.map (fun i =>
            mValue.obj [("id", mValue.str (sampleStepManager.toString i.stepInfo.id)),
              ("args", mValue.array (i.submatches.map (fun j =>
                mValue.obj [("val", mValue.str j.value), ("pos", mValue.int j.position)]))),
              ("source", mValue.str i.stepInfo.source)]))]),
        { sampleWorld [] with
          engine := (sampleEngine.stepMatches "I have 3 cukes" (sampleWorld []).engine).2,
          calls := (sampleWorld []).calls ++
            [{ call := EngineCall.stepMatches "I have 3 cukes", raised := false }] }) :=
  StepMatchesCommand_run_response sampleStepManager sampleEngine (sampleWorld [])
    [("name_to_match", mValue.str "I have 3 cukes")] "I have 3 cukes"
    { resultSet :=
        [{ stepInfo := { id := 1, source := "steps.cpp:7" },
           submatches := [{ value := "3", position := 7 }] }] }
    rfl rfl

/-- C9: when the argument object has the strings `k` under `step_keyword` and
`n` under `step_name`, `snippet_text` calls the engine's `snippetText` exactly
once, with `(k, n)` in that order, and answers `["success", t]` for the text
`t` the engine returns. -/
theorem SnippetTextCommand_run_response {σ : Type} (commands : CukeCommands σ) (w : World σ)
    (o : mObject) (k n t : String)
    (hk : mObject.subscript o "step_keyword" = mValue.str k)
    (hn : mObject.subscript o "step_name" = mValue.str n)
    (ht : (commands.snippetText k n w.engine).1 = some t) :
    SnippetTextCommand.run commands (mValue.obj o) w =
      (some (mValue.array [mValue.str "success", mValue.str t]),
        { w with
          engine := (commands.snippetText k n w.engine).2,
          calls := w.calls ++ [{ call := EngineCall.snippetText k n, raised := false }] }) := by
  simp only [SnippetTextCommand.run, mValue.get_obj, hk, hn, mValue.get_str, World.engineCall, ht]
  simp [SnippetTextCommand.formatResponse, mValue.push_back, JSONCommand.success_response,
    mValue.get_array]

/-- Witness for C9: the sample engine joins keyword and name. -/
theorem SnippetTextCommand_run_response_witness :
    SnippetTextCommand.run sampleEngine
        (mValue.obj [("step_keyword", mValue.str "Given"), ("step_name", mValue.str "a cuke")])
        (sampleWorld []) =
      (some (mValue.array [mValue.str "success", mValue.str ("Given" ++ " " ++ "a cuke")]),
        { sampleWorld [] with
          engine := (sampleEngine.snippetText "Given" "a cuke" (sampleWorld []).engine).2,
          calls := (sampleWorld []).calls ++
            [{ call := EngineCall.snippetText "Given" "a cuke", raised := false }] }) :=
  SnippetTextCommand_run_response sampleEngine (sampleWorld [])
    [("step_keyword", mValue.str "Given"), ("step_name", mValue.str "a cuke")]
    "Given" "a cuke" ("Given" ++ " " ++ "a cuke") rfl rfl rfl

theorem InvokeCommand.fillTableArg.columns_map_str (cs : List String) (t : Table) :
    InvokeCommand.fillTableArg.columns (cs.map mValue.str) t =
      some { t with columns := t.columns ++ cs } := by
  induction cs generalizing t with
  | nil => simp [InvokeCommand.fillTableArg.columns]
  | cons c cs ih =>
    simp [InvokeCommand.fillTableArg.columns, mValue.get_str, ih, Table.addColumn]

theorem InvokeCommand.fillTableArg.loop_rows (rs : List (List String)) (t : Table) :
    InvokeCommand.fillTableArg.loop false
        (rs.map (fun row => mValue.array (row.map mValue.str))) t =
      some { t with rows := t.rows ++ rs } := by
  induction rs generalizing t with
  | nil => simp [InvokeCommand.fillTableArg.loop]
  | cons r rs ih =>
    simp [InvokeCommand.fillTableArg.loop, mValue.get_array, pushStrings_map_str, ih,
      Table.addRow]

/-- Decoding the encoding of a table into a table appends its header to the
columns and its rows to the rows. -/
theorem InvokeCommand.fillTableArg_encodeTable (cs : List String) (rs : List (List String))
    (t : Table) :
    (encodeTable cs rs).get_array.bind (InvokeCommand.fillTableArg t) =
      some { columns := t.columns ++ cs, rows := t.rows ++ rs } := by
  simp [encodeTable, mValue.get_array, InvokeCommand.fillTableArg, InvokeCommand.fillTableArg.loop,
    InvokeCommand.fillTableArg.columns_map_str, InvokeCommand.fillTableArg.loop_rows]

theorem InvokeCommand.getInvokeArgs.loop_strings (l : List String) (rest : List mValue)
    (a : InvokeArgs) :
    InvokeCommand.getInvokeArgs.loop (l.map mValue.str ++ rest) a =
      InvokeCommand.getInvokeArgs.loop rest { a with args := a.args ++ l } := by
  induction l generalizing a with
  | nil => simp
  | cons s l ih =>
    simp [InvokeCommand.getInvokeArgs.loop, mValue.get_str, ih, InvokeArgs.addArg]

theorem InvokeCommand.getInvokeArgs.loop_table (cs : List String) (rs : List (List String))
    (rest : List mValue) (a : InvokeArgs) :
    InvokeCommand.getInvokeArgs.loop (encodeTable cs rs :: rest) a =
      InvokeCommand.getInvokeArgs.loop rest
        { a with tableArg :=
          { columns := a.tableArg.columns ++ cs, rows := a.tableArg.rows ++ rs } } := by
  have h := InvokeCommand.fillTableArg_encodeTable cs rs a.tableArg
  simp only [encodeTable, mValue.get_array, Option.some_bind] at h
  simp only [InvokeCommand.getInvokeArgs.loop, encodeTable, mValue.get_str, Option.map_none',
    mValue.get_array, h]

/-- C8: when the `args` array of an `invoke` argument consists of strings and
one table element `[cs, rs[0], rs[1], ...]`, `getInvokeArgs` returns the
strings in order together with the table whose columns are exactly `cs` and
whose rows are exactly `rs`, cell by cell: the first sub-array is the header
and is not among the rows. -/
theorem getInvokeArgs_table_round_trip (o : mObject) (before after cs : List String)
    (rs : List (List String))
    (hargs : mObject.subscript o "args" =
      mValue.array (before.map mValue.str ++ encodeTable cs rs :: after.map mValue.str)) :
    InvokeCommand.getInvokeArgs (mValue.obj o) =
      some { args := before ++ after, tableArg := { columns := cs, rows := rs } } := by
  simp only [InvokeCommand.getInvokeArgs, mValue.get_obj, hargs, mValue.get_array,
    InvokeCommand.getInvokeArgs.loop_strings, InvokeCommand.getInvokeArgs.loop_table]
  have h := InvokeCommand.getInvokeArgs.loop_strings after []
    { args := InvokeArgs.new.args ++ before,
      tableArg := { columns := InvokeArgs.new.tableArg.columns ++ cs,
                    rows := InvokeArgs.new.tableArg.rows ++ rs } }
  simp only [List.append_nil] at h
  rw [h]
  simp [InvokeCommand.getInvokeArgs.loop, InvokeArgs.new]

/-- Witness for C8: columns `["a","b"]`, rows `[["1","2"],["3","4"]]`. -/
theorem getInvokeArgs_table_round_trip_witness :
    InvokeCommand.getInvokeArgs
        (mValue.obj [("id", mValue.str "1"),
          ("args", mValue.array [encodeTable ["a", "b"] [["1", "2"], ["3", "4"]]])]) =
      some { args := [] ++ [],
             tableArg := { columns := ["a", "b"], rows := [["1", "2"], ["3", "4"]] } } :=
  getInvokeArgs_table_round_trip
    [("id", mValue.str "1"),
      ("args", mValue.array [encodeTable ["a", "b"] [["1", "2"], ["3", "4"]]])]
    [] [] ["a", "b"] [["1", "2"], ["3", "4"]] rfl

theorem StatusTagged_success (payload : List mValue) :
    StatusTagged (mValue.array (mValue.str "success" :: payload)) :=
  ⟨"success", payload, rfl, Or.inl rfl⟩

theorem StatusTagged_fail (payload : List mValue) :
    StatusTagged (mValue.array (mValue.str "fail" :: payload)) :=
  ⟨"fail", payload, rfl, Or.inr (Or.inl rfl)⟩

theorem StatusTagged_pending (payload : List mValue) :
    StatusTagged (mValue.array (mValue.str "pending" :: payload)) :=
  ⟨"pending", payload, rfl, Or.inr (Or.inr rfl)⟩

theorem InvokeCommand.formatResponse_tagged (r : InvokeResult) :
    StatusTagged (InvokeCommand.formatResponse r) := by
  obtain ⟨t, d⟩ := r
  cases t
  · exact StatusTagged_success []
  · simp only [InvokeCommand.formatResponse]
    split
    · exact StatusTagged_pending _
    · exact StatusTagged_pending _
  · exact StatusTagged_fail _

theorem push_back_success_tagged (x r : mValue)
    (h : JSONCommand.success_response.push_back x = some r) : StatusTagged r := by
  simp [mValue.push_back, JSONCommand.success_response, mValue.get_array] at h
  subst h
  exact StatusTagged_success _

/-- Every response a command returns is status tagged. -/
theorem JSONCommand.run_tagged {σ : Type} (sm : StepManager) (commands : CukeCommands σ)
    (cmd : JSONCommand) (args : mValue) (w : World σ) (r : mValue)
    (h : (JSONCommand.run sm commands cmd args w).1 = some r) : StatusTagged r := by
  cases cmd
  · simp only [JSONCommand.run, BeginScenarioCommand.run] at h
    split at h
    · cases h
    · split at h
      · cases h
      · cases h; exact StatusTagged_success []
  · simp only [JSONCommand.run, EndScenarioCommand.run] at h
    split at h
    · cases h
    · split at h
      · cases h
      · cases h; exact StatusTagged_success []
    · cases h; exact StatusTagged_fail []
  · simp only [JSONCommand.run, StepMatchesCommand.run] at h
    split at h
    · cases h
    · split at h
      · cases h
      · exact push_back_success_tagged _ r h
  · simp only [JSONCommand.run, InvokeCommand.run] at h
    split at h
    · cases h
    · split at h
      · cases h
      · split at h
        · cases h
        · cases h; exact InvokeCommand.formatResponse_tagged _
  · simp only [JSONCommand.run, SnippetTextCommand.run] at h
    split at h
    · cases h
    · split at h
      · cases h
      · split at h
        · cases h
        · split at h
          · cases h
          · exact push_back_success_tagged _ r h

/-- Every response the dispatcher returns is status tagged. -/
theorem WireProtocol.invokeCommand_tagged {σ : Type} (sm : StepManager)
    (commands : CukeCommands σ) (v : mValue) (w : World σ) (r : mValue)
    (h : (WireProtocol.invokeCommand sm commands v w).1 = some r) : StatusTagged r := by
  unfold WireProtocol.invokeCommand at h
  split at h
  · cases h
  · split at h
    · split at h
      · cases h
      · simp only at h
        split at h
        · exact JSONCommand.run_tagged sm commands _ _ _ r h
        · cases h; exact StatusTagged_fail []
    · cases h; exact StatusTagged_fail []

/-- C10: for a non-null decoded request, whatever the engine does and
whatever the registry holds, the response written is a non-empty array whose
first element is one of the strings `success`, `fail`, `pending`. -/
theorem processOneRequest_response_shape {σ : Type} (sm : StepManager)
    (commands : CukeCommands σ) (w : World σ) (v : mValue) (rest : List mValue)
    (hgood : w.stream.good = true) (hin : w.stream.input = v :: rest)
    (hv : v ≠ mValue.null) :
    ∃ (response : mValue),
      (WireProtocol.processOneRequest sm commands w).1 = some () ∧
      (WireProtocol.processOneRequest sm commands w).2.stream.output =
        w.stream.output ++ [response] ∧
      StatusTagged response := by
  obtain ⟨hs, _⟩ := WireProtocol.invokeCommand_frame sm commands v w.afterRead
  have hout : w.afterRead.stream.output = w.stream.output := by
    simp [World.afterRead, read_stream, hgood, hin]
  rw [WireProtocol.processOneRequest_eq sm commands w v rest hgood hin hv]
  refine ⟨(WireProtocol.invokeCommand sm commands v w.afterRead).1.getD
    JSONCommand.fail_response, rfl, ?_, ?_⟩
  · simp [write_stream, hs, hout]
  · cases hr : (WireProtocol.invokeCommand sm commands v w.afterRead).1 with
    | none => exact StatusTagged_fail []
    | some r => exact WireProtocol.invokeCommand_tagged sm commands v w.afterRead r hr

/-- Witness for C10: an `invoke` request whose step fails in the engine. -/
theorem processOneRequest_response_shape_witness :
    ∃ (response : mValue),
      (WireProtocol.processOneRequest sampleStepManager sampleEngine
        (sampleWorld [mValue.array [mValue.str "invoke",
          mValue.obj [("id", mValue.str "2"), ("args", mValue.array [])]]])).1 = some () ∧
      (WireProtocol.processOneRequest sampleStepManager sampleEngine
        (sampleWorld [mValue.array [mValue.str "invoke",
          mValue.obj [("id", mValue.str "2"), ("args", mValue.array [])]]])).2.stream.output =
        (sampleWorld [mValue.array [mValue.str "invoke",
          mValue.obj [("id", mValue.str "2"), ("args", mValue.array [])]]]).stream.output ++
          [response] ∧
      StatusTagged response :=
  processOneRequest_response_shape sampleStepManager sampleEngine
    (sampleWorld [mValue.array [mValue.str "invoke",
      mValue.obj [("id", mValue.str "2"), ("args", mValue.array [])]]])
    (mValue.array [mValue.str "invoke",
      mValue.obj [("id", mValue.str "2"), ("args", mValue.array [])]]) [] rfl rfl
    (by intro h; cases h)

theorem getInvokeArgsTagged.loop_eq (l : List mValue) (a : InvokeArgs) :
    InvokeCommand.getInvokeArgs.loop l a = getInvokeArgsTagged.loop l a := by
  induction l generalizing a with
  | nil => simp [InvokeCommand.getInvokeArgs.loop, getInvokeArgsTagged.loop]
  | cons i rest ih =>
    cases i with
    | str s => simp [InvokeCommand.getInvokeArgs.loop, getInvokeArgsTagged.loop, mValue.get_str, ih]
    | array t =>
      simp only [InvokeCommand.getInvokeArgs.loop, getInvokeArgsTagged.loop, mValue.get_str,
        mValue.get_array, Option.map_none']
      cases InvokeCommand.fillTableArg a.tableArg t with
      | none => rfl
      | some t1 => exact ih _
    | _ =>
      simp [InvokeCommand.getInvokeArgs.loop, getInvokeArgsTagged.loop, mValue.get_str,
        mValue.get_array]

/-- C18: for every argument value, and so for every `args` array,
`getInvokeArgs`, which tries `get_str` and falls back to table decoding when
it throws, gives the same decoded `InvokeArgs`, or the same failure, as the
decoder that inspects the JSON type of each element: string argument for a
string, table for an array, failure otherwise. -/
theorem getInvokeArgs_eq_tagged (jsonArgs : mValue) :
    InvokeCommand.getInvokeArgs jsonArgs = getInvokeArgsTagged jsonArgs ∧
    ∀ (argsArray : List mValue) (args : InvokeArgs),
      InvokeCommand.getInvokeArgs.loop argsArray args =
        getInvokeArgsTagged.loop argsArray args := by
  refine ⟨?_, getInvokeArgsTagged.loop_eq⟩
  cases jsonArgs with
  | obj o =>
    simp only [InvokeCommand.getInvokeArgs, getInvokeArgsTagged, mValue.get_obj]
    cases h : mObject.subscript o "args" with
    | array a => simp only [mValue.get_array]; exact getInvokeArgsTagged.loop_eq a _
    | _ => simp [mValue.get_array]
  | _ => simp [InvokeCommand.getInvokeArgs, getInvokeArgsTagged, mValue.get_obj]



/-- With an intact registry, a request naming a registered command is handed
to that command with the argument value of the request. -/
theorem WireProtocol.invokeCommand_known {σ : Type} (sm : StepManager)
    (commands : CukeCommands σ) (w : World σ) (s : String) (rest : List mValue)
    (c : JSONCommand) (hreg : RegistryIntact w.jsonCommands)
    (hc : (StdMap.subscript none jsonCommands s).1 = some c) :
    WireProtocol.invokeCommand sm commands (mValue.array (mValue.str s :: rest)) w =
      JSONCommand.run sm commands c (argumentOf rest) w := by
  have h1 : (StdMap.subscript none w.jsonCommands s).1 = some c := (hreg s).trans hc
  have h2 := StdMap.subscript_some w.jsonCommands s c h1
  simp only [WireProtocol.invokeCommand, mValue.get_array, mValue.get_str, List.getD_cons_zero,
    List.length_cons, gt_iff_lt, Nat.zero_lt_succ, if_true, h1, h2]
  cases rest <;> simp [argumentOf]

/-- C19: a request `[s]` without an argument is dispatched exactly as
`[s, null]`: same response, same engine calls, same world, for every name `s`.
The null marker is not an empty object: `["begin_scenario"]` runs the handler
on null and gives `["success"]` when the engine returns, while
`["begin_scenario", {}]` throws; `["end_scenario"]` calls the engine while
`["end_scenario", {}]` answers `["fail"]`; and on the null marker `get_obj`
throws, so the handlers that read a required field throw before reading
it. -/
theorem absent_argument_is_null {σ : Type} (sm : StepManager) (commands : CukeCommands σ)
    (w : World σ) (hreg : RegistryIntact w.jsonCommands) :
    (∀ s : String,
      WireProtocol.invokeCommand sm commands (mValue.array [mValue.str s]) w =
        WireProtocol.invokeCommand sm commands (mValue.array [mValue.str s, mValue.null]) w) ∧
    (WireProtocol.invokeCommand sm commands (mValue.array [mValue.str "begin_scenario"]) w =
        BeginScenarioCommand.run commands mValue.null w ∧
      (WireProtocol.invokeCommand sm commands
          (mValue.array [mValue.str "begin_scenario"]) w).1 =
        (commands.beginScenario [] w.engine).1.map
          (fun _ => mValue.array [mValue.str "success"]) ∧
      WireProtocol.invokeCommand sm commands
          (mValue.array [mValue.str "begin_scenario", mValue.obj []]) w = (none, w)) ∧
    (WireProtocol.invokeCommand sm commands (mValue.array [mValue.str "end_scenario"]) w =
        EndScenarioCommand.run commands mValue.null w ∧
      (WireProtocol.invokeCommand sm commands
          (mValue.array [mValue.str "end_scenario"]) w).1 =
        (commands.endScenario w.engine).1.map
          (fun _ => mValue.array [mValue.str "success"]) ∧
      WireProtocol.invokeCommand sm commands
          (mValue.array [mValue.str "end_scenario", mValue.obj []]) w =
        (some (mValue.array [mValue.str "fail"]), w)) ∧
    (mValue.null.get_obj = none ∧ (mValue.obj []).get_obj = some [] ∧
      StepMatchesCommand.run sm commands mValue.null w = (none, w) ∧
      SnippetTextCommand.run commands mValue.null w = (none, w) ∧
      InvokeCommand.run sm commands mValue.null w = (none, w)) := by
  have hnull : (mValue.null).is_null = true := rfl
  have hobj : (mValue.obj []).is_null = false := rfl
  refine ⟨?_, ⟨?_, ?_, ?_⟩, ⟨?_, ?_, ?_⟩, rfl, rfl, rfl, rfl, rfl⟩
  · intro s
    simp [WireProtocol.invokeCommand, mValue.get_array, mValue.get_str]
  · exact WireProtocol.invokeCommand_known sm commands w "begin_scenario" []
      JSONCommand.BeginScenarioCommand hreg rfl
  · rw [WireProtocol.invokeCommand_known sm commands w "begin_scenario" []
      JSONCommand.BeginScenarioCommand hreg rfl]
    simp only [JSONCommand.run, argumentOf, BeginScenarioCommand.run, hnull, World.engineCall]
    cases h : (commands.beginScenario [] w.engine).1 <;>
      simp [JSONCommand.success_response, h]
  · rw [WireProtocol.invokeCommand_known sm commands w "begin_scenario" [mValue.obj []]
      JSONCommand.BeginScenarioCommand hreg rfl]
    simp [JSONCommand.run, argumentOf, BeginScenarioCommand.run, hobj, mValue.get_obj,
      mObject.subscript, StdMap.subscript, StdMap.find, mValue.get_array]
  · exact WireProtocol.invokeCommand_known sm commands w "end_scenario" []
      JSONCommand.EndScenarioCommand hreg rfl
  · rw [WireProtocol.invokeCommand_known sm commands w "end_scenario" []
      JSONCommand.EndScenarioCommand hreg rfl]
    simp only [JSONCommand.run, argumentOf, EndScenarioCommand.run, EndScenarioCommand.condition,
      hnull, if_true, World.engineCall]
    cases h : (commands.endScenario w.engine).1 <;>
      simp [JSONCommand.success_response, h]
  · rw [WireProtocol.invokeCommand_known sm commands w "end_scenario" [mValue.obj []]
      JSONCommand.EndScenarioCommand hreg rfl]
    simp [JSONCommand.run, argumentOf, EndScenarioCommand.run, EndScenarioCommand.condition,
      hobj, mValue.get_obj, mObject.subscript, StdMap.subscript, StdMap.find, mValue.is_null,
      JSONCommand.fail_response]

/-- Witness for C19: the sample engine in a fresh world. -/
theorem absent_argument_is_null_witness :
    (∀ s : String,
      WireProtocol.invokeCommand sampleStepManager sampleEngine (mValue.array [mValue.str s]) (sampleWorld []) =
        WireProtocol.invokeCommand sampleStepManager sampleEngine (mValue.array [mValue.str s, mValue.null]) (sampleWorld [])) ∧
    (WireProtocol.invokeCommand sampleStepManager sampleEngine (mValue.array [mValue.str "begin_scenario"]) (sampleWorld []) =
        BeginScenarioCommand.run sampleEngine mValue.null (sampleWorld []) ∧
      (WireProtocol.invokeCommand sampleStepManager sampleEngine
          (mValue.array [mValue.str "begin_scenario"]) (sampleWorld [])).1 =
        (sampleEngine.beginScenario [] (sampleWorld []).engine).1.map
          (fun _ => mValue.array [mValue.str "success"]) ∧
      WireProtocol.invokeCommand sampleStepManager sampleEngine
          (mValue.array [mValue.str "begin_scenario", mValue.obj []]) (sampleWorld []) = (none, (sampleWorld []))) ∧
    (WireProtocol.invokeCommand sampleStepManager sampleEngine (mValue.array [mValue.str "end_scenario"]) (sampleWorld []) =
        EndScenarioCommand.run sampleEngine mValue.null (sampleWorld []) ∧
      (WireProtocol.invokeCommand sampleStepManager sampleEngine
          (mValue.array [mValue.str "end_scenario"]) (sampleWorld [])).1 =
        (sampleEngine.endScenario (sampleWorld []).engine).1.map
          (fun _ => mValue.array [mValue.str "success"]) ∧
      WireProtocol.invokeCommand sampleStepManager sampleEngine
          (mValue.array [mValue.str "end_scenario", mValue.obj []]) (sampleWorld []) =
        (some (mValue.array [mValue.str "fail"]), (sampleWorld []))) ∧
    (mValue.null.get_obj = none ∧ (mValue.obj []).get_obj = some [] ∧
      StepMatchesCommand.run sampleStepManager sampleEngine mValue.null (sampleWorld []) = (none, (sampleWorld [])) ∧
      SnippetTextCommand.run sampleEngine mValue.null (sampleWorld []) = (none, (sampleWorld [])) ∧
      InvokeCommand.run sampleStepManager sampleEngine mValue.null (sampleWorld []) = (none, (sampleWorld []))) :=
  absent_argument_is_null sampleStepManager sampleEngine (sampleWorld []) RegistryIntact_initial

/-- C13: whenever `EndScenarioCommand::run` returns a response, it is either
`["fail"]`, and then the world is untouched, so `endScenario` was not called,
or `["success"]`, and then the trace has grown by exactly one `endScenario`
call, which returned, and the engine is in the state that call left. -/
theorem EndScenarioCommand_call_discipline {σ : Type} (commands : CukeCommands σ)
    (w : World σ) (jsonArgs r : mValue)
    (h : (EndScenarioCommand.run commands jsonArgs w).1 = some r) :
    (r = mValue.array [mValue.str "fail"] ∨ r = mValue.array [mValue.str "success"]) ∧
    (r = mValue.array [mValue.str "fail"] →
      (EndScenarioCommand.run commands jsonArgs w).2 = w) ∧
    (r = mValue.array [mValue.str "success"] →
      (EndScenarioCommand.run commands jsonArgs w).2.calls =
          w.calls ++ [{ call := EngineCall.endScenario, raised := false }] ∧
        (EndScenarioCommand.run commands jsonArgs w).2.engine =
          (commands.endScenario w.engine).2) := by
  have hne : (mValue.array [mValue.str "success"]) ≠ mValue.array [mValue.str "fail"] := by
    intro e; simp at e
  simp only [EndScenarioCommand.run] at h ⊢
  split at h
  · cases h
  · split at h
    · cases h
    · rename_i hcall
      cases h
      simp only [World.engineCall] at hcall
      refine ⟨Or.inr rfl, fun e => absurd e hne, fun _ => ?_⟩
      simp [World.engineCall, hcall]
  · cases h
    exact ⟨Or.inl rfl, fun _ => rfl, fun e => absurd e.symm hne⟩

/-- Witness for C13: `end_scenario` without an argument on the sample
engine. -/
theorem EndScenarioCommand_call_discipline_witness :
    (mValue.array [mValue.str "success"] = mValue.array [mValue.str "fail"] ∨
      mValue.array [mValue.str "success"] = mValue.array [mValue.str "success"]) ∧
    (mValue.array [mValue.str "success"] = mValue.array [mValue.str "fail"] →
      (EndScenarioCommand.run sampleEngine mValue.null (sampleWorld [])).2 = sampleWorld []) ∧
    (mValue.array [mValue.str "success"] = mValue.array [mValue.str "success"] →
      (EndScenarioCommand.run sampleEngine mValue.null (sampleWorld [])).2.calls =
          (sampleWorld []).calls ++ [{ call := EngineCall.endScenario, raised := false }] ∧
        (EndScenarioCommand.run sampleEngine mValue.null (sampleWorld [])).2.engine =
          (sampleEngine.endScenario (sampleWorld []).engine).2) :=
  EndScenarioCommand_call_discipline sampleEngine (sampleWorld []) mValue.null
    (mValue.array [mValue.str "success"]) rfl

theorem StdMap.subscript_snd {β : Type} (dflt : β) (m : List (String × β)) (k : String) :
    (StdMap.subscript dflt m k).2 = m ∨
      (StdMap.find m k = none ∧ (StdMap.subscript dflt m k).2 = m ++ [(k, dflt)]) := by
  unfold StdMap.subscript
  cases hk : StdMap.find m k with
  | some x => left; rfl
  | none => right; simp [StdMap.insert, hk]

/-- A lookup with `operator[]` answers the same after any earlier lookup. -/
theorem StdMap.subscript_subscript_fst {β : Type} (dflt : β) (m : List (String × β))
    (k s : String) :
    (StdMap.subscript dflt (StdMap.subscript dflt m k).2 s).1 = (StdMap.subscript dflt m s).1 := by
  unfold StdMap.subscript
  cases hk : StdMap.find m k with
  | some x => simp
  | none =>
    simp only [StdMap.find_insert]
    cases hs : StdMap.find m s with
    | some y => simp
    | none =>
      by_cases e : k = s
      · simp [e]
      · simp [e]

/-- The registry after a dispatch is the one before, or the one the lookup
of the command name left. -/
theorem WireProtocol.invokeCommand_jsonCommands {σ : Type} (sm : StepManager)
    (commands : CukeCommands σ) (v : mValue) (w : World σ) :
    (WireProtocol.invokeCommand sm commands v w).2.jsonCommands = w.jsonCommands ∨
      ∃ s rest, v = mValue.array (mValue.str s :: rest) ∧
        (WireProtocol.invokeCommand sm commands v w).2.jsonCommands =
          (StdMap.subscript none w.jsonCommands s).2 := by
  cases v with
  | array a =>
    cases a with
    | nil => left; simp [WireProtocol.invokeCommand, mValue.get_array]
    | cons x tl =>
      cases x with
      | str s =>
        right
        refine ⟨s, tl, rfl, ?_⟩
        simp only [WireProtocol.invokeCommand, mValue.get_array, mValue.get_str,
          List.getD_cons_zero, List.length_cons, gt_iff_lt, Nat.zero_lt_succ, if_true]
        split
        · exact (JSONCommand.run_frame sm commands _ _ _).1
        · rfl
      | _ => left; simp [WireProtocol.invokeCommand, mValue.get_array, mValue.get_str]
  | _ => left; simp [WireProtocol.invokeCommand, mValue.get_array]

/-- C15, as stated, fails at a request naming an unknown command: the lookup
`jsonCommands[commandName]` inserts an entry for the name, so the mapping has
a sixth key afterwards. -/
theorem jsonCommands_grows_counterexample :
    (WireProtocol.invokeCommand sampleStepManager sampleEngine
        (mValue.array [mValue.str "foo"]) (sampleWorld [])).2.jsonCommands =
      jsonCommands ++ [("foo", none)] ∧
    (WireProtocol.invokeCommand sampleStepManager sampleEngine
        (mValue.array [mValue.str "foo"]) (sampleWorld [])).2.jsonCommands ≠
      (sampleWorld []).jsonCommands := by
  constructor
  · rfl
  · intro h
    have hlen := congrArg List.length h
    simp [WireProtocol.invokeCommand, mValue.get_array, mValue.get_str, sampleWorld,
      StdMap.subscript, StdMap.find, StdMap.insert, jsonCommands] at hlen

/-- The response of a command depends on the world only through the answers
of the engine. -/
theorem JSONCommand.run_response_congr {σ : Type} (sm : StepManager)
    (commands : CukeCommands σ) (cmd : JSONCommand) (args : mValue) (w1 w2 : World σ)
    (h : SameAnswers commands w1.engine w2.engine) :
    (JSONCommand.run sm commands cmd args w1).1 = (JSONCommand.run sm commands cmd args w2).1 := by
  obtain ⟨hb, he, hm, hs, hi⟩ := h
  cases cmd
  · simp only [JSONCommand.run, BeginScenarioCommand.run, World.engineCall]
    split
    · rfl
    · rename_i tags _
      simp only [hb tags]
      cases (commands.beginScenario tags w2.engine).1 <;> rfl
  · simp only [JSONCommand.run, EndScenarioCommand.run, World.engineCall]
    split
    · rfl
    · simp only [he]
      cases (commands.endScenario w2.engine).1 <;> rfl
    · rfl
  · simp only [JSONCommand.run, StepMatchesCommand.run, World.engineCall]
    split
    · rfl
    · rename_i matcher _
      simp only [hm matcher]
      cases (commands.stepMatches matcher w2.engine).1 <;> rfl
  · simp only [JSONCommand.run, InvokeCommand.run, World.engineCall]
    split
    · rfl
    · split
      · rfl
      · rename_i id _ _ spArgs _
        simp only [hi id spArgs]
        cases (commands.invoke id spArgs w2.engine).1 <;> rfl
  · simp only [JSONCommand.run, SnippetTextCommand.run, World.engineCall]
    split
    · rfl
    · split
      · rfl
      · split
        · rfl
        · rename_i k _ _ n _
          simp only [hs k n]
          cases (commands.snippetText k n w2.engine).1 <;> rfl

/-- The response of the dispatcher depends on the world only through the
answers of the engine and the answers of the registry. -/
theorem WireProtocol.invokeCommand_response_congr {σ : Type} (sm : StepManager)
    (commands : CukeCommands σ) (q : mValue) (w1 w2 : World σ)
    (hreg : ∀ s : String, (StdMap.subscript none w1.jsonCommands s).1 =
      (StdMap.subscript none w2.jsonCommands s).1)
    (h : SameAnswers commands w1.engine w2.engine) :
    (WireProtocol.invokeCommand sm commands q w1).1 =
      (WireProtocol.invokeCommand sm commands q w2).1 := by
  unfold WireProtocol.invokeCommand
  split
  · rfl
  · split
    · split
      · rfl
      · rename_i s _
        simp only [hreg s]
        cases (StdMap.subscript none w2.jsonCommands s).1 with
        | none => rfl
        | some c => exact JSONCommand.run_response_congr sm commands c _ _ _ h
    · rfl

/-- Dispatching any sequence of requests keeps the registry intact. -/
theorem WireProtocol.dispatchAll_intact {σ : Type} (sm : StepManager)
    (commands : CukeCommands σ) (earlier : List mValue) (w : World σ)
    (hreg : RegistryIntact w.jsonCommands) :
    RegistryIntact (WireProtocol.dispatchAll sm commands earlier w).jsonCommands := by
  induction earlier generalizing w with
  | nil => exact hreg
  | cons q qs ih =>
    apply ih
    rcases WireProtocol.invokeCommand_jsonCommands sm commands q w with h | ⟨s, _, _, h⟩
    · rw [h]; exact hreg
    · rw [h]; exact RegistryIntact_subscript _ s hreg

theorem StdMap.subscript_some_find {β : Type} (m : List (String × Option β)) (k : String)
    (c : β) (h : (StdMap.subscript none m k).1 = some c) : StdMap.find m k = some (some c) := by
  unfold StdMap.subscript at h
  cases hk : StdMap.find m k with
  | some x => simp [hk] at h; rw [h]
  | none => simp [hk] at h

/-- C16: after any finite sequence of earlier requests, unknown command names
included, dispatched from a world with an intact registry, the response to a
request `q` is the response `q` gets when it is processed first, provided the
engine gives the same answers in both states; and in the registry reached the
five names still map to their own handlers and every other name maps to no
handler. -/
theorem dispatcher_stateless {σ : Type} (sm : StepManager) (commands : CukeCommands σ)
    (earlier : List mValue) (q : mValue) (w0 : World σ)
    (hreg : RegistryIntact w0.jsonCommands)
    (hsame : SameAnswers commands
      (WireProtocol.dispatchAll sm commands earlier w0).engine w0.engine) :
    WireProtocol.responseTo sm commands q (WireProtocol.dispatchAll sm commands earlier w0) =
      WireProtocol.responseTo sm commands q w0 ∧
    (WireProtocol.invokeCommand sm commands q
        (WireProtocol.dispatchAll sm commands earlier w0)).1 =
      (WireProtocol.invokeCommand sm commands q w0).1 ∧
    (StdMap.find (WireProtocol.dispatchAll sm commands earlier w0).jsonCommands
        "begin_scenario" = some (some JSONCommand.BeginScenarioCommand) ∧
      StdMap.find (WireProtocol.dispatchAll sm commands earlier w0).jsonCommands
        "end_scenario" = some (some JSONCommand.EndScenarioCommand) ∧
      StdMap.find (WireProtocol.dispatchAll sm commands earlier w0).jsonCommands
        "step_matches" = some (some JSONCommand.StepMatchesCommand) ∧
      StdMap.find (WireProtocol.dispatchAll sm commands earlier w0).jsonCommands
        "invoke" = some (some JSONCommand.InvokeCommand) ∧
      StdMap.find (WireProtocol.dispatchAll sm commands earlier w0).jsonCommands
        "snippet_text" = some (some JSONCommand.SnippetTextCommand)) ∧
    (∀ s : String, s ≠ "begin_scenario" → s ≠ "end_scenario" → s ≠ "step_matches" →
        s ≠ "invoke" → s ≠ "snippet_text" →
      (StdMap.subscript none
        (WireProtocol.dispatchAll sm commands earlier w0).jsonCommands s).1 = none) := by
  have hint := WireProtocol.dispatchAll_intact sm commands earlier w0 hreg
  have hresp := WireProtocol.invokeCommand_response_congr sm commands q
    (WireProtocol.dispatchAll sm commands earlier w0) w0
    (fun s => (hint s).trans (hreg s).symm) hsame
  refine ⟨?_, hresp, ⟨?_, ?_, ?_, ?_, ?_⟩, ?_⟩
  · simp only [WireProtocol.responseTo, hresp]
  · exact StdMap.subscript_some_find _ _ _ (hint "begin_scenario")
  · exact StdMap.subscript_some_find _ _ _ (hint "end_scenario")
  · exact StdMap.subscript_some_find _ _ _ (hint "step_matches")
  · exact StdMap.subscript_some_find _ _ _ (hint "invoke")
  · exact StdMap.subscript_some_find _ _ _ (hint "snippet_text")
  · intro s n1 n2 n3 n4 n5
    rw [hint s]
    simp [StdMap.subscript, StdMap.find, jsonCommands, Ne.symm n1, Ne.symm n2, Ne.symm n3,
      Ne.symm n4, Ne.symm n5]

/-- Witness for C16: an unknown command, a bare string and a
`begin_scenario` come first; then `end_scenario` is asked. -/
theorem dispatcher_stateless_witness :
    WireProtocol.responseTo sampleStepManager sampleEngine (mValue.array [mValue.str "end_scenario"]) (WireProtocol.dispatchAll sampleStepManager sampleEngine [mValue.array [mValue.str "foo"], mValue.str "x", mValue.array [mValue.str "begin_scenario"]] (sampleWorld [])) =
      WireProtocol.responseTo sampleStepManager sampleEngine (mValue.array [mValue.str "end_scenario"]) (sampleWorld []) ∧
    (WireProtocol.invokeCommand sampleStepManager sampleEngine (mValue.array [mValue.str "end_scenario"])
        (WireProtocol.dispatchAll sampleStepManager sampleEngine [mValue.array [mValue.str "foo"], mValue.str "x", mValue.array [mValue.str "begin_scenario"]] (sampleWorld []))).1 =
      (WireProtocol.invokeCommand sampleStepManager sampleEngine (mValue.array [mValue.str "end_scenario"]) (sampleWorld [])).1 ∧
    (StdMap.find (WireProtocol.dispatchAll sampleStepManager sampleEngine [mValue.array [mValue.str "foo"], mValue.str "x", mValue.array [mValue.str "begin_scenario"]] (sampleWorld [])).jsonCommands
        "begin_scenario" = some (some JSONCommand.BeginScenarioCommand) ∧
      StdMap.find (WireProtocol.dispatchAll sampleStepManager sampleEngine [mValue.array [mValue.str "foo"], mValue.str "x", mValue.array [mValue.str "begin_scenario"]] (sampleWorld [])).jsonCommands
        "end_scenario" = some (some JSONCommand.EndScenarioCommand) ∧
      StdMap.find (WireProtocol.dispatchAll sampleStepManager sampleEngine [mValue.array [mValue.str "foo"], mValue.str "x", mValue.array [mValue.str "begin_scenario"]] (sampleWorld [])).jsonCommands
        "step_matches" = some (some JSONCommand.StepMatchesCommand) ∧
      StdMap.find (WireProtocol.dispatchAll sampleStepManager sampleEngine [mValue.array [mValue.str "foo"], mValue.str "x", mValue.array [mValue.str "begin_scenario"]] (sampleWorld [])).jsonCommands
        "invoke" = some (some JSONCommand.InvokeCommand) ∧
      StdMap.find (WireProtocol.dispatchAll sampleStepManager sampleEngine [mValue.array [mValue.str "foo"], mValue.str "x", mValue.array [mValue.str "begin_scenario"]] (sampleWorld [])).jsonCommands
        "snippet_text" = some (some JSONCommand.SnippetTextCommand)) ∧
    (∀ s : String, s ≠ "begin_scenario" → s ≠ "end_scenario" → s ≠ "step_matches" →
        s ≠ "invoke" → s ≠ "snippet_text" →
      (StdMap.subscript none
        (WireProtocol.dispatchAll sampleStepManager sampleEngine [mValue.array [mValue.str "foo"], mValue.str "x", mValue.array [mValue.str "begin_scenario"]] (sampleWorld [])).jsonCommands s).1 = none) :=
  dispatcher_stateless sampleStepManager sampleEngine
    [mValue.array [mValue.str "foo"], mValue.str "x", mValue.array [mValue.str "begin_scenario"]]
    (mValue.array [mValue.str "end_scenario"]) (sampleWorld []) RegistryIntact_initial
    ⟨fun _ => rfl, rfl, fun _ => rfl, fun _ _ => rfl, fun _ _ => rfl⟩

/-- A command neither reads nor writes the stream. -/
theorem JSONCommand.run_stream {σ : Type} (sm : StepManager) (commands : CukeCommands σ)
    (cmd : JSONCommand) (args : mValue) (w : World σ) (s : IOStream) :
    JSONCommand.run sm commands cmd args { w with stream := s } =
      ((JSONCommand.run sm commands cmd args w).1,
        { (JSONCommand.run sm commands cmd args w).2 with stream := s }) := by
  cases cmd <;>
    simp only [JSONCommand.run, BeginScenarioCommand.run, EndScenarioCommand.run,
      StepMatchesCommand.run, InvokeCommand.run, SnippetTextCommand.run, World.engineCall] <;>
    (repeat' split) <;> rfl

theorem JSONCommand.run_stream_fields {σ : Type} (sm : StepManager)
    (commands : CukeCommands σ) (cmd : JSONCommand) (args : mValue) (e : σ)
    (c : List EngineEvent) (j : List (String × Option JSONCommand)) (s0 s : IOStream) :
    JSONCommand.run sm commands cmd args
        { engine := e, calls := c, jsonCommands := j, stream := s } =
      ((JSONCommand.run sm commands cmd args
          { engine := e, calls := c, jsonCommands := j, stream := s0 }).1,
        { engine := (JSONCommand.run sm commands cmd args
            { engine := e, calls := c, jsonCommands := j, stream := s0 }).2.engine,
          calls := (JSONCommand.run sm commands cmd args
            { engine := e, calls := c, jsonCommands := j, stream := s0 }).2.calls,
          jsonCommands := (JSONCommand.run sm commands cmd args
            { engine := e, calls := c, jsonCommands := j, stream := s0 }).2.jsonCommands,
          stream := s }) :=
  JSONCommand.run_stream sm commands cmd args
    { engine := e, calls := c, jsonCommands := j, stream := s0 } s

/-- The dispatcher neither reads nor writes the stream. -/
theorem WireProtocol.invokeCommand_stream {σ : Type} (sm : StepManager)
    (commands : CukeCommands σ) (q : mValue) (w : World σ) (s : IOStream) :
    WireProtocol.invokeCommand sm commands q { w with stream := s } =
      ((WireProtocol.invokeCommand sm commands q w).1,
        { (WireProtocol.invokeCommand sm commands q w).2 with stream := s }) := by
  unfold WireProtocol.invokeCommand
  split
  · rfl
  · split
    · split
      · rfl
      · simp only
        split
        · exact JSONCommand.run_stream_fields sm commands _ _ _ _ _ _ _
        · rfl
    · rfl

theorem WireProtocol.responses_stream {σ : Type} (sm : StepManager)
    (commands : CukeCommands σ) (qs : List mValue) (w : World σ) (s : IOStream) :
    WireProtocol.responses sm commands qs { w with stream := s } =
      WireProtocol.responses sm commands qs w := by
  induction qs generalizing w s with
  | nil => rfl
  | cons q qs ih =>
    simp only [WireProtocol.responses, WireProtocol.responseTo,
      WireProtocol.invokeCommand_stream]
    rw [ih]

theorem WireProtocol.responses_length {σ : Type} (sm : StepManager)
    (commands : CukeCommands σ) (qs : List mValue) (w : World σ) :
    (WireProtocol.responses sm commands qs w).length = qs.length := by
  induction qs generalizing w with
  | nil => rfl
  | cons q qs ih => simp [WireProtocol.responses, ih]

theorem WireProtocol.dispatchAll_stream {σ : Type} (sm : StepManager)
    (commands : CukeCommands σ) (qs : List mValue) (w : World σ) (s : IOStream) :
    WireProtocol.dispatchAll sm commands qs { w with stream := s } =
      { WireProtocol.dispatchAll sm commands qs w with stream := s } := by
  induction qs generalizing w s with
  | nil => rfl
  | cons q qs ih =>
    simp only [WireProtocol.dispatchAll, WireProtocol.invokeCommand_stream]
    rw [ih]

/-- One turn of the loop on a non-null request: the dispatcher handles it and
its response is written. -/
theorem WireProtocol.processOneRequest_step {σ : Type} (sm : StepManager)
    (commands : CukeCommands σ) (w : World σ) (v : mValue) (rest : List mValue)
    (hgood : w.stream.good = true) (hin : w.stream.input = v :: rest)
    (hv : v ≠ mValue.null) :
    WireProtocol.processOneRequest sm commands w =
      (some (),
        { (WireProtocol.invokeCommand sm commands v w).2 with
          stream :=
            { input := rest,
              output := w.stream.output ++ [WireProtocol.responseTo sm commands v w],
              good := true } }) := by
  have hafter : w.afterRead =
      { w with stream := { input := rest, output := w.stream.output, good := true } } := by
    simp [World.afterRead, read_stream, hgood, hin]
  rw [WireProtocol.processOneRequest_eq sm commands w v rest hgood hin hv, hafter,
    WireProtocol.invokeCommand_stream]
  simp [write_stream, WireProtocol.responseTo]

/-- The loop on a stream that delivers the non-null values `qs`: with enough
fuel it ends, having dispatched the requests in order and written their
responses in order. -/
theorem WireProtocol.processStream_eq {σ : Type} (sm : StepManager)
    (commands : CukeCommands σ) (qs : List mValue) (w : World σ) (fuel : Nat)
    (hgood : w.stream.good = true) (hin : w.stream.input = qs)
    (hnn : ∀ q, q ∈ qs → q ≠ mValue.null) (hfuel : qs.length + 2 ≤ fuel) :
    WireProtocol.processStream sm commands fuel w =
      some (some (),
        { WireProtocol.dispatchAll sm commands qs w with
          stream :=
            { input := [],
              output := w.stream.output ++ WireProtocol.responses sm commands qs w,
              good := false } }) := by
  induction qs generalizing w fuel with
  | nil =>
    obtain ⟨f, rfl⟩ : ∃ f, fuel = f + 2 := ⟨fuel - 2, by simp at hfuel; omega⟩
    have hone : WireProtocol.processOneRequest sm commands w =
        (some (), { w with stream := { input := [], output := w.stream.output, good := false } }) := by
      simp [WireProtocol.processOneRequest, World.afterRead, read_stream, hgood, hin,
        mValue.is_null]
    simp [WireProtocol.processStream, hgood, hone, WireProtocol.dispatchAll,
      WireProtocol.responses]
  | cons q qs ih =>
    obtain ⟨f, rfl⟩ : ∃ f, fuel = f + 1 := ⟨fuel - 1, by simp at hfuel; omega⟩
    have hq : q ≠ mValue.null := hnn q (List.mem_cons_self q qs)
    have hone := WireProtocol.processOneRequest_step sm commands w q qs hgood hin hq
    have hrec := ih
      { (WireProtocol.invokeCommand sm commands q w).2 with
        stream :=
          { input := qs,
            output := w.stream.output ++ [WireProtocol.responseTo sm commands q w],
            good := true } } f rfl rfl
      (fun x hx => hnn x (List.mem_cons_of_mem q hx))
      (by simp at hfuel ⊢; omega)
    simp only [WireProtocol.processStream, hgood, if_true, hone]
    rw [hrec, WireProtocol.dispatchAll_stream, WireProtocol.responses_stream]
    simp [WireProtocol.dispatchAll, WireProtocol.responses]

theorem WireProtocol.dispatchAll_append {σ : Type} (sm : StepManager)
    (commands : CukeCommands σ) (before after : List mValue) (w : World σ) :
    WireProtocol.dispatchAll sm commands (before ++ after) w =
      WireProtocol.dispatchAll sm commands after
        (WireProtocol.dispatchAll sm commands before w) := by
  induction before generalizing w with
  | nil => rfl
  | cons q qs ih => simp [WireProtocol.dispatchAll, ih]

theorem WireProtocol.responses_append {σ : Type} (sm : StepManager)
    (commands : CukeCommands σ) (before after : List mValue) (w : World σ) :
    WireProtocol.responses sm commands (before ++ after) w =
      WireProtocol.responses sm commands before w ++
        WireProtocol.responses sm commands after
          (WireProtocol.dispatchAll sm commands before w) := by
  induction before generalizing w with
  | nil => rfl
  | cons q qs ih => simp [WireProtocol.responses, WireProtocol.dispatchAll, ih]

/-- A value that is not an array starting with a string leaves the world as
it is and is answered with `["fail"]`. -/
theorem WireProtocol.invokeCommand_malformed {σ : Type} (sm : StepManager)
    (commands : CukeCommands σ) (v : mValue) (w : World σ)
    (hshape : ∀ (s : String) (tl : List mValue), v ≠ mValue.array (mValue.str s :: tl)) :
    (WireProtocol.invokeCommand sm commands v w).2 = w ∧
      WireProtocol.responseTo sm commands v w = mValue.array [mValue.str "fail"] := by
  cases v with
  | array a =>
    cases a with
    | nil =>
      simp [WireProtocol.responseTo, WireProtocol.invokeCommand, mValue.get_array,
        JSONCommand.fail_response]
    | cons x tl =>
      cases x with
      | str s => exact absurd rfl (hshape s tl)
      | _ =>
        simp [WireProtocol.responseTo, WireProtocol.invokeCommand, mValue.get_array,
          mValue.get_str, JSONCommand.fail_response]
  | _ =>
    simp [WireProtocol.responseTo, WireProtocol.invokeCommand, mValue.get_array,
      JSONCommand.fail_response]

theorem InvokeCommand.getInvokeArgs.loop_encode (l : List InvokeArg) (a : InvokeArgs) :
    InvokeCommand.getInvokeArgs.loop (l.map InvokeArg.encode) a =
      some { args := a.args ++ InvokeArg.strings l,
             tableArg := { columns := a.tableArg.columns ++ InvokeArg.allColumns l,
                           rows := a.tableArg.rows ++ InvokeArg.allRows l } } := by
  induction l generalizing a with
  | nil =>
    simp [InvokeCommand.getInvokeArgs.loop, InvokeArg.strings, InvokeArg.allColumns,
      InvokeArg.allRows]
  | cons x l ih =>
    cases x with
    | string s =>
      simp [InvokeArg.encode, InvokeCommand.getInvokeArgs.loop, mValue.get_str, ih,
        InvokeArgs.addArg, InvokeArg.strings, InvokeArg.allColumns, InvokeArg.allRows]
    | table cs rs =>
      simp only [List.map_cons, InvokeArg.encode, InvokeCommand.getInvokeArgs.loop_table, ih,
        InvokeArg.strings, InvokeArg.allColumns, InvokeArg.allRows, List.append_assoc]

theorem InvokeArg.strings_append (l1 l2 : List InvokeArg) :
    InvokeArg.strings (l1 ++ l2) = InvokeArg.strings l1 ++ InvokeArg.strings l2 := by
  induction l1 with
  | nil => rfl
  | cons x l ih => cases x <;> simp [InvokeArg.strings, ih]

theorem InvokeArg.allColumns_append (l1 l2 : List InvokeArg) :
    InvokeArg.allColumns (l1 ++ l2) = InvokeArg.allColumns l1 ++ InvokeArg.allColumns l2 := by
  induction l1 with
  | nil => rfl
  | cons x l ih => cases x <;> simp [InvokeArg.allColumns, ih]

theorem InvokeArg.allRows_append (l1 l2 : List InvokeArg) :
    InvokeArg.allRows (l1 ++ l2) = InvokeArg.allRows l1 ++ InvokeArg.allRows l2 := by
  induction l1 with
  | nil => rfl
  | cons x l ih => cases x <;> simp [InvokeArg.allRows, ih]

theorem InvokeArg.projections_of_strings (ss : List String) :
    InvokeArg.strings (ss.map InvokeArg.string) = ss ∧
      InvokeArg.allColumns (ss.map InvokeArg.string) = [] ∧
      InvokeArg.allRows (ss.map InvokeArg.string) = [] := by
  induction ss with
  | nil => exact ⟨rfl, rfl, rfl⟩
  | cons s ss ih => simp [InvokeArg.strings, InvokeArg.allColumns, InvokeArg.allRows, ih]

/-- C14: when the `args` array consists of strings and well-formed table
encodings, `getInvokeArgs` returns the string elements in their order and one
table: its columns are the header rows of all the table elements, joined in
array order, and its rows all their data rows, joined in array order. Moving
a table element across neighbouring strings does not change the result. -/
theorem getInvokeArgs_shared_table (o : mObject) (l : List InvokeArg)
    (hargs : mObject.subscript o "args" = mValue.array (l.map InvokeArg.encode)) :
    InvokeCommand.getInvokeArgs (mValue.obj o) =
      some { args := InvokeArg.strings l,
             tableArg := { columns := InvokeArg.allColumns l, rows := InvokeArg.allRows l } } ∧
    (∀ (before after : List InvokeArg) (ss : List String) (cs : List String)
        (rs : List (List String)) (a : InvokeArgs),
      InvokeCommand.getInvokeArgs.loop
          ((before ++ ss.map InvokeArg.string ++ InvokeArg.table cs rs :: after).map
            InvokeArg.encode) a =
        InvokeCommand.getInvokeArgs.loop
          ((before ++ InvokeArg.table cs rs :: ss.map InvokeArg.string ++ after).map
            InvokeArg.encode) a) := by
  constructor
  · simp [InvokeCommand.getInvokeArgs, mValue.get_obj, hargs, mValue.get_array,
      InvokeCommand.getInvokeArgs.loop_encode, InvokeArgs.new]
  · intro before after ss cs rs a
    obtain ⟨h1, h2, h3⟩ := InvokeArg.projections_of_strings ss
    rw [InvokeCommand.getInvokeArgs.loop_encode, InvokeCommand.getInvokeArgs.loop_encode]
    simp [InvokeArg.strings_append, InvokeArg.allColumns_append, InvokeArg.allRows_append,
      InvokeArg.strings, InvokeArg.allColumns, InvokeArg.allRows, h1, h2, h3]

/-- Witness for C14: two tables around a string share one table. -/
theorem getInvokeArgs_shared_table_witness :
    InvokeCommand.getInvokeArgs (mValue.obj [("id", mValue.str "1"), ("args", mValue.array ([InvokeArg.table ["a"] [["1"]], InvokeArg.string "x", InvokeArg.table ["b"] [["2"]]].map InvokeArg.encode))]) =
      some { args := InvokeArg.strings [InvokeArg.table ["a"] [["1"]], InvokeArg.string "x", InvokeArg.table ["b"] [["2"]]],
             tableArg := { columns := InvokeArg.allColumns [InvokeArg.table ["a"] [["1"]], InvokeArg.string "x", InvokeArg.table ["b"] [["2"]]], rows := InvokeArg.allRows [InvokeArg.table ["a"] [["1"]], InvokeArg.string "x", InvokeArg.table ["b"] [["2"]]] } } ∧
    (∀ (before after : List InvokeArg) (ss : List String) (cs : List String)
        (rs : List (List String)) (a : InvokeArgs),
      InvokeCommand.getInvokeArgs.loop
          ((before ++ ss.map InvokeArg.string ++ InvokeArg.table cs rs :: after).map
            InvokeArg.encode) a =
        InvokeCommand.getInvokeArgs.loop
          ((before ++ InvokeArg.table cs rs :: ss.map InvokeArg.string ++ after).map
            InvokeArg.encode) a) :=
  getInvokeArgs_shared_table
    [("id", mValue.str "1"),
      ("args", mValue.array ([InvokeArg.table ["a"] [["1"]], InvokeArg.string "x",
        InvokeArg.table ["b"] [["2"]]].map InvokeArg.encode))]
    [InvokeArg.table ["a"] [["1"]], InvokeArg.string "x", InvokeArg.table ["b"] [["2"]]] rfl

theorem pushStrings_some (l : List mValue) (out r : List String)
    (h : pushStrings l out = some r) : ∃ ts : List String, l = ts.map mValue.str := by
  induction l generalizing out with
  | nil => exact ⟨[], rfl⟩
  | cons j rest ih =>
    cases j with
    | str s =>
      simp only [pushStrings, mValue.get_str] at h
      obtain ⟨ts, hts⟩ := ih _ h
      exact ⟨s :: ts, by simp [hts]⟩
    | _ => simp [pushStrings, mValue.get_str] at h

theorem InvokeCommand.fillTableArg.columns_some (l : List mValue) (t r : Table)
    (h : InvokeCommand.fillTableArg.columns l t = some r) :
    ∃ cs : List String, l = cs.map mValue.str := by
  induction l generalizing t with
  | nil => exact ⟨[], rfl⟩
  | cons j rest ih =>
    cases j with
    | str s =>
      simp only [InvokeCommand.fillTableArg.columns, mValue.get_str] at h
      obtain ⟨cs, hcs⟩ := ih _ h
      exact ⟨s :: cs, by simp [hcs]⟩
    | _ => simp [InvokeCommand.fillTableArg.columns, mValue.get_str] at h

theorem InvokeCommand.fillTableArg.loop_some_table (first : Bool) (l : List mValue) (t r : Table)
    (h : InvokeCommand.fillTableArg.loop first l t = some r) :
    TableArray (mValue.array l) := by
  induction l generalizing first t with
  | nil => exact ⟨[], rfl⟩
  | cons i rest ih =>
    cases i with
    | array rowArray =>
      simp only [InvokeCommand.fillTableArg.loop, mValue.get_array] at h
      cases first with
      | true =>
        simp only [if_true] at h
        cases hc : InvokeCommand.fillTableArg.columns rowArray t with
        | none => simp [hc] at h
        | some t1 =>
          simp only [hc] at h
          obtain ⟨cs, hcs⟩ := InvokeCommand.fillTableArg.columns_some rowArray t t1 hc
          obtain ⟨rows, hrows⟩ := ih false t1 h
          refine ⟨cs :: rows, ?_⟩
          simp only [mValue.array.injEq] at hrows
          simp [hcs, hrows]
      | false =>
        simp only [Bool.false_eq_true, if_false] at h
        cases hc : pushStrings rowArray [] with
        | none => simp [hc] at h
        | some row =>
          simp only [hc] at h
          obtain ⟨cs, hcs⟩ := pushStrings_some rowArray [] row hc
          obtain ⟨rows, hrows⟩ := ih false _ h
          refine ⟨cs :: rows, ?_⟩
          simp only [mValue.array.injEq] at hrows
          simp [hcs, hrows]
    | _ => simp [InvokeCommand.fillTableArg.loop, mValue.get_array] at h

/-- When the loop of `getInvokeArgs` succeeds, every element of the array is
a string or an array of arrays of strings. -/
theorem InvokeCommand.getInvokeArgs.loop_some_elements (l : List mValue) (a r : InvokeArgs)
    (h : InvokeCommand.getInvokeArgs.loop l a = some r) :
    ∀ e, e ∈ l → (∃ s, e = mValue.str s) ∨ TableArray e := by
  induction l generalizing a with
  | nil => intro e he; cases he
  | cons i rest ih =>
    intro e he
    cases i with
    | str s =>
      simp only [InvokeCommand.getInvokeArgs.loop, mValue.get_str, Option.map_some'] at h
      rcases List.mem_cons.1 he with he | he
      · exact Or.inl ⟨s, he⟩
      · exact ih _ h e he
    | array t =>
      simp only [InvokeCommand.getInvokeArgs.loop, mValue.get_str, Option.map_none',
        mValue.get_array] at h
      cases hf : InvokeCommand.fillTableArg a.tableArg t with
      | none => simp [hf] at h
      | some t1 =>
        simp only [hf] at h
        rcases List.mem_cons.1 he with he | he
        · right; rw [he]; exact InvokeCommand.fillTableArg.loop_some_table true t a.tableArg t1 hf
        · exact ih _ h e he
    | _ =>
      simp [InvokeCommand.getInvokeArgs.loop, mValue.get_str, mValue.get_array] at h

/-- An argument error makes the command throw before the world is
touched. -/
theorem JSONCommand.run_argument_error {σ : Type} (sm : StepManager)
    (commands : CukeCommands σ) (cmd : JSONCommand) (args : mValue) (w : World σ)
    (herr : ArgumentError sm cmd args) :
    JSONCommand.run sm commands cmd args w = (none, w) := by
  cases cmd with
  | BeginScenarioCommand =>
    obtain ⟨hnn, htags⟩ := herr
    cases args with
    | null => exact absurd rfl hnn
    | obj o =>
      have hobj : (mValue.obj o).is_null = false := rfl
      simp only [JSONCommand.run, BeginScenarioCommand.run, hobj, mValue.get_obj]
      cases ha : (mObject.subscript o "tags").get_array with
      | none => simp
      | some jsonTags =>
        cases hp : pushStrings jsonTags [] with
        | none => simp [hp]
        | some ts =>
          exfalso
          obtain ⟨ss, hss⟩ := pushStrings_some jsonTags [] ts hp
          apply htags o rfl
          refine ⟨ss, ?_⟩
          cases hv : mObject.subscript o "tags" with
          | array x => simp [hv, mValue.get_array] at ha; rw [ha, hss]
          | _ => simp [hv, mValue.get_array] at ha
    | _ => simp [JSONCommand.run, BeginScenarioCommand.run, mValue.is_null, mValue.get_obj]
  | EndScenarioCommand => exact absurd herr id
  | StepMatchesCommand =>
    cases args with
    | obj o =>
      have h := herr o rfl
      simp only [JSONCommand.run, StepMatchesCommand.run,
        StepMatchesCommand.getStepMatchesMatcher, mValue.get_obj]
      cases hv : mObject.subscript o "name_to_match" with
      | str p => exact absurd hv (h p)
      | _ => simp [mValue.get_str]
    | _ =>
      simp [JSONCommand.run, StepMatchesCommand.run, StepMatchesCommand.getStepMatchesMatcher,
        mValue.get_obj]
  | SnippetTextCommand =>
    cases args with
    | obj o =>
      simp only [JSONCommand.run, SnippetTextCommand.run, mValue.get_obj]
      rcases herr o rfl with h | h
      · cases hv : mObject.subscript o "step_keyword" with
        | str k => exact absurd hv (h k)
        | _ => simp [mValue.get_str]
      · cases hk : (mObject.subscript o "step_keyword").get_str with
        | none => simp
        | some k =>
          cases hv : mObject.subscript o "step_name" with
          | str n => exact absurd hv (h n)
          | _ => simp [mValue.get_str]
    | _ => simp [JSONCommand.run, SnippetTextCommand.run, mValue.get_obj]
  | InvokeCommand =>
    cases args with
    | obj o =>
      simp only [JSONCommand.run, InvokeCommand.run]
      rcases herr o rfl with h | h | ⟨a, ha, e, he, hs, ht⟩
      · have hid : InvokeCommand.getInvokeId sm (mValue.obj o) = none := by
          simp only [InvokeCommand.getInvokeId, mValue.get_obj]
          cases hv : mObject.subscript o "id" with
          | str s =>
            simp only [mValue.get_str]
            cases hf : sm.fromString s with
            | none => rfl
            | some id => exact absurd hf (h s id hv)
          | _ => simp [mValue.get_str]
        simp [hid]
      · have hargs : InvokeCommand.getInvokeArgs (mValue.obj o) = none := by
          simp only [InvokeCommand.getInvokeArgs, mValue.get_obj]
          cases hv : mObject.subscript o "args" with
          | array a => exact absurd hv (h a)
          | _ => simp [mValue.get_array]
        cases InvokeCommand.getInvokeId sm (mValue.obj o) <;> simp [hargs]
      · have hargs : InvokeCommand.getInvokeArgs (mValue.obj o) = none := by
          simp only [InvokeCommand.getInvokeArgs, mValue.get_obj, ha, mValue.get_array]
          cases hl : InvokeCommand.getInvokeArgs.loop a InvokeArgs.new with
          | none => rfl
          | some r =>
            exfalso
            rcases InvokeCommand.getInvokeArgs.loop_some_elements a _ r hl e he with ⟨s, h1⟩ | h1
            · exact hs s h1
            · exact ht h1
        cases InvokeCommand.getInvokeId sm (mValue.obj o) <;> simp [hargs]
    | _ => simp [JSONCommand.run, InvokeCommand.run, InvokeCommand.getInvokeId, mValue.get_obj]

/-- C12: when the next request names a registered command and its argument
has an argument error (a required field missing or of the wrong JSON type, as
`ArgumentError` lists them for each command), the command throws with the
world untouched, and `processOneRequest` writes exactly `["fail"]` and
changes nothing else: the engine state, the trace of engine calls and the
registry are as before, so the engine operation is never called. -/
theorem argument_errors_atomic {σ : Type} (sm : StepManager) (commands : CukeCommands σ)
    (w : World σ) (s : String) (cmd : JSONCommand) (rest more : List mValue)
    (hgood : w.stream.good = true)
    (hin : w.stream.input = mValue.array (mValue.str s :: rest) :: more)
    (hreg : RegistryIntact w.jsonCommands)
    (hname : (StdMap.subscript none jsonCommands s).1 = some cmd)
    (herr : ArgumentError sm cmd (argumentOf rest)) :
    JSONCommand.run sm commands cmd (argumentOf rest) w = (none, w) ∧
    WireProtocol.processOneRequest sm commands w =
      (some (),
        { w with
          stream :=
            { input := more,
              output := w.stream.output ++ [mValue.array [mValue.str "fail"]],
              good := true } }) := by
  have hrun := JSONCommand.run_argument_error sm commands cmd (argumentOf rest) w herr
  have hinv := WireProtocol.invokeCommand_known sm commands w s rest cmd hreg hname
  refine ⟨hrun, ?_⟩
  rw [WireProtocol.processOneRequest_step sm commands w _ more hgood hin (by intro e; cases e)]
  simp [WireProtocol.responseTo, hinv, hrun, JSONCommand.fail_response]

/-- Witness for C12: `invoke` with a number among its `args`. -/
theorem argument_errors_atomic_witness :
    JSONCommand.run sampleStepManager sampleEngine JSONCommand.InvokeCommand (argumentOf [mValue.obj [("id", mValue.str "1"), ("args", mValue.array [mValue.int 5])]]) (sampleWorld [(mValue.array (mValue.str "invoke" :: [mValue.obj [("id", mValue.str "1"), ("args", mValue.array [mValue.int 5])]]))]) = (none, (sampleWorld [(mValue.array (mValue.str "invoke" :: [mValue.obj [("id", mValue.str "1"), ("args", mValue.array [mValue.int 5])]]))])) ∧
    WireProtocol.processOneRequest sampleStepManager sampleEngine (sampleWorld [(mValue.array (mValue.str "invoke" :: [mValue.obj [("id", mValue.str "1"), ("args", mValue.array [mValue.int 5])]]))]) =
      (some (),
        { (sampleWorld [(mValue.array (mValue.str "invoke" :: [mValue.obj [("id", mValue.str "1"), ("args", mValue.array [mValue.int 5])]]))]) with
          stream :=
            { input := [],
              output := (sampleWorld [(mValue.array (mValue.str "invoke" :: [mValue.obj [("id", mValue.str "1"), ("args", mValue.array [mValue.int 5])]]))]).stream.output ++ [mValue.array [mValue.str "fail"]],
              good := true } }) :=
  argument_errors_atomic sampleStepManager sampleEngine (sampleWorld [(mValue.array (mValue.str "invoke" :: [mValue.obj [("id", mValue.str "1"), ("args", mValue.array [mValue.int 5])]]))])
    "invoke" JSONCommand.InvokeCommand
    [mValue.obj [("id", mValue.str "1"), ("args", mValue.array [mValue.int 5])]] [] rfl rfl
    RegistryIntact_initial rfl
    (by
      intro o ho
      cases ho
      refine Or.inr (Or.inr ⟨[mValue.int 5], rfl, mValue.int 5, List.mem_singleton.2 rfl, ?_, ?_⟩)
      · intro s h; cases h
      · rintro ⟨rows, h⟩; cases h)

theorem jsonCommands_invoke_name (s : String)
    (h : (StdMap.subscript none jsonCommands s).1 = some JSONCommand.InvokeCommand) :
    s = "invoke" := by
  by_cases h1 : "begin_scenario" = s
  · subst h1; simp [StdMap.subscript, StdMap.find, jsonCommands] at h
  by_cases h2 : "end_scenario" = s
  · subst h2; simp [StdMap.subscript, StdMap.find, jsonCommands] at h
  by_cases h3 : "step_matches" = s
  · subst h3; simp [StdMap.subscript, StdMap.find, jsonCommands] at h
  by_cases h4 : "invoke" = s
  · exact h4.symm
  by_cases h5 : "snippet_text" = s
  · subst h5; simp [StdMap.subscript, StdMap.find, jsonCommands] at h
  simp [StdMap.subscript, StdMap.find, StdMap.insert, jsonCommands, h1, h2, h3, h4, h5] at h

/-- An `invoke` whose arguments decode and whose step fails in the engine is
answered with the failure message. -/
theorem InvokeCommand.run_failure {σ : Type} (sm : StepManager) (commands : CukeCommands σ)
    (args : mValue) (w : World σ) (id : step_id_type) (a : InvokeArgs) (d : String)
    (hid : InvokeCommand.getInvokeId sm args = some id)
    (hargs : InvokeCommand.getInvokeArgs args = some a)
    (hres : (commands.invoke id a w.engine).1 =
      some { type := InvokeResultType.FAILURE, description := d }) :
    (InvokeCommand.run sm commands args w).1 =
      some (mValue.array [mValue.str "fail", mValue.obj [("message", mValue.str d)]]) := by
  simp [InvokeCommand.run, hid, hargs, World.engineCall, hres, InvokeCommand.formatResponse,
    StdMap.insert, StdMap.find]

/-- The shapes of the response to a command: bare `["fail"]`, a `success` or
`pending` array, or, only for an `invoke` whose arguments decoded and whose
step failed in the engine, `["fail", {"message": d}]`. -/
theorem JSONCommand.run_response_cases {σ : Type} (sm : StepManager)
    (commands : CukeCommands σ) (cmd : JSONCommand) (args : mValue) (w : World σ) :
    (JSONCommand.run sm commands cmd args w).1.getD JSONCommand.fail_response =
        mValue.array [mValue.str "fail"] ∨
    (∃ payload, (JSONCommand.run sm commands cmd args w).1.getD JSONCommand.fail_response =
        mValue.array (mValue.str "success" :: payload)) ∨
    (∃ payload, (JSONCommand.run sm commands cmd args w).1.getD JSONCommand.fail_response =
        mValue.array (mValue.str "pending" :: payload)) ∨
    (cmd = JSONCommand.InvokeCommand ∧ ∃ id a d,
      InvokeCommand.getInvokeId sm args = some id ∧
      InvokeCommand.getInvokeArgs args = some a ∧
      (commands.invoke id a w.engine).1 =
        some { type := InvokeResultType.FAILURE, description := d } ∧
      (JSONCommand.run sm commands cmd args w).1.getD JSONCommand.fail_response =
        mValue.array [mValue.str "fail", mValue.obj [("message", mValue.str d)]]) := by
  cases cmd
  · simp only [JSONCommand.run, BeginScenarioCommand.run]
    split
    · left; rfl
    · split
      · left; rfl
      · right; left; exact ⟨[], rfl⟩
  · simp only [JSONCommand.run, EndScenarioCommand.run]
    split
    · left; rfl
    · split
      · left; rfl
      · right; left; exact ⟨[], rfl⟩
    · left; rfl
  · simp only [JSONCommand.run, StepMatchesCommand.run]
    split
    · left; rfl
    · split
      · left; rfl
      · right; left; exact ⟨_, rfl⟩
  · simp only [JSONCommand.run, InvokeCommand.run]
    split
    · left; rfl
    · split
      · left; rfl
      · rename_i id hid _ a ha
        simp only [World.engineCall]
        cases hres : (commands.invoke id a w.engine).1 with
        | none => left; rfl
        | some result =>
          obtain ⟨t, d⟩ := result
          cases t
          · right; left; exact ⟨[], rfl⟩
          · right; right; left
            simp only [Option.getD_some, InvokeCommand.formatResponse]
            split
            · exact ⟨_, rfl⟩
            · exact ⟨_, rfl⟩
          · right; right; right
            exact ⟨trivial, id, a, d, hid, ha, hres, rfl⟩
  · simp only [JSONCommand.run, SnippetTextCommand.run]
    split
    · left; rfl
    · split
      · left; rfl
      · split
        · left; rfl
        · split
          · left; rfl
          · right; left; exact ⟨_, rfl⟩

/-- With an intact registry, a request naming an unknown command is answered
with the bare `["fail"]`. -/
theorem WireProtocol.responseTo_unknown {σ : Type} (sm : StepManager)
    (commands : CukeCommands σ) (w : World σ) (s : String) (rest : List mValue)
    (hreg : RegistryIntact w.jsonCommands)
    (hc : (StdMap.subscript none jsonCommands s).1 = none) :
    WireProtocol.responseTo sm commands (mValue.array (mValue.str s :: rest)) w =
      mValue.array [mValue.str "fail"] := by
  have h1 : (StdMap.subscript none w.jsonCommands s).1 = none := (hreg s).trans hc
  simp [WireProtocol.responseTo, WireProtocol.invokeCommand, mValue.get_array, mValue.get_str,
    h1, JSONCommand.fail_response]

/-- The shapes of the response to a request, with an intact registry. -/
theorem WireProtocol.responseTo_cases {σ : Type} (sm : StepManager)
    (commands : CukeCommands σ) (v : mValue) (w : World σ)
    (hreg : RegistryIntact w.jsonCommands) :
    WireProtocol.responseTo sm commands v w = mValue.array [mValue.str "fail"] ∨
    (∃ payload, WireProtocol.responseTo sm commands v w =
        mValue.array (mValue.str "success" :: payload)) ∨
    (∃ payload, WireProtocol.responseTo sm commands v w =
        mValue.array (mValue.str "pending" :: payload)) ∨
    (∃ rest id a d, v = mValue.array (mValue.str "invoke" :: rest) ∧
      InvokeCommand.getInvokeId sm (argumentOf rest) = some id ∧
      InvokeCommand.getInvokeArgs (argumentOf rest) = some a ∧
      (commands.invoke id a w.engine).1 =
        some { type := InvokeResultType.FAILURE, description := d } ∧
      WireProtocol.responseTo sm commands v w =
        mValue.array [mValue.str "fail", mValue.obj [("message", mValue.str d)]]) := by
  by_cases hshape : ∀ (s : String) (tl : List mValue), v ≠ mValue.array (mValue.str s :: tl)
  · exact Or.inl (WireProtocol.invokeCommand_malformed sm commands v w hshape).2
  · simp only [not_forall, not_not] at hshape
    obtain ⟨s, rest, hv⟩ := hshape
    subst hv
    cases hc : (StdMap.subscript none jsonCommands s).1 with
    | none => exact Or.inl (WireProtocol.responseTo_unknown sm commands w s rest hreg hc)
    | some cmd =>
      have hinv := WireProtocol.invokeCommand_known sm commands w s rest cmd hreg hc
      simp only [WireProtocol.responseTo, hinv]
      rcases JSONCommand.run_response_cases sm commands cmd (argumentOf rest) w with
        h | h | h | ⟨hcmd, id, a, d, hid, ha, hres, h⟩
      · exact Or.inl h
      · exact Or.inr (Or.inl h)
      · exact Or.inr (Or.inr (Or.inl h))
      · subst hcmd
        have hs := jsonCommands_invoke_name s hc
        subst hs
        exact Or.inr (Or.inr (Or.inr ⟨rest, id, a, d, rfl, hid, ha, hres, h⟩))

/-- With an intact registry, an `invoke` whose arguments decode and whose
step fails in the engine is answered with the failure message. -/
theorem WireProtocol.responseTo_failure {σ : Type} (sm : StepManager)
    (commands : CukeCommands σ) (w : World σ) (rest : List mValue) (id : step_id_type)
    (a : InvokeArgs) (d : String) (hreg : RegistryIntact w.jsonCommands)
    (hid : InvokeCommand.getInvokeId sm (argumentOf rest) = some id)
    (hargs : InvokeCommand.getInvokeArgs (argumentOf rest) = some a)
    (hres : (commands.invoke id a w.engine).1 =
      some { type := InvokeResultType.FAILURE, description := d }) :
    WireProtocol.responseTo sm commands (mValue.array (mValue.str "invoke" :: rest)) w =
      mValue.array [mValue.str "fail", mValue.obj [("message", mValue.str d)]] := by
  have hinv := WireProtocol.invokeCommand_known sm commands w "invoke" rest
    JSONCommand.InvokeCommand hreg rfl
  simp only [WireProtocol.responseTo, hinv, JSONCommand.run,
    InvokeCommand.run_failure sm commands (argumentOf rest) w id a d hid hargs hres,
    Option.getD_some]

/-- C11: with an intact registry, the response to a non-null request is a
`fail` array with a payload exactly when the request is an `invoke` whose
arguments decoded and whose step the engine reported as FAILURE, and then it
is `["fail", {"message": description}]`; any other `fail` response is the
bare `["fail"]`, in particular the one to an unknown command and the one to
an argument error, which are therefore the same. -/
theorem error_detail_only_from_engine_failure {σ : Type} (sm : StepManager)
    (commands : CukeCommands σ) (w : World σ) (v : mValue) (more : List mValue)
    (hgood : w.stream.good = true) (hin : w.stream.input = v :: more)
    (hv : v ≠ mValue.null) (hreg : RegistryIntact w.jsonCommands) :
    (WireProtocol.processOneRequest sm commands w).2.stream.output =
      w.stream.output ++ [WireProtocol.responseTo sm commands v w] ∧
    ((∃ payload, payload ≠ [] ∧
        WireProtocol.responseTo sm commands v w =
          mValue.array (mValue.str "fail" :: payload)) ↔
      ∃ rest id a d, v = mValue.array (mValue.str "invoke" :: rest) ∧
        InvokeCommand.getInvokeId sm (argumentOf rest) = some id ∧
        InvokeCommand.getInvokeArgs (argumentOf rest) = some a ∧
        (commands.invoke id a w.engine).1 =
          some { type := InvokeResultType.FAILURE, description := d }) ∧
    (∀ rest id a d, v = mValue.array (mValue.str "invoke" :: rest) →
      InvokeCommand.getInvokeId sm (argumentOf rest) = some id →
      InvokeCommand.getInvokeArgs (argumentOf rest) = some a →
      (commands.invoke id a w.engine).1 =
        some { type := InvokeResultType.FAILURE, description := d } →
      WireProtocol.responseTo sm commands v w =
        mValue.array [mValue.str "fail", mValue.obj [("message", mValue.str d)]]) ∧
    (∀ payload,
      WireProtocol.responseTo sm commands v w = mValue.array (mValue.str "fail" :: payload) →
      payload = [] ∨ ∃ d, payload = [mValue.obj [("message", mValue.str d)]]) ∧
    (∀ s rest, v = mValue.array (mValue.str s :: rest) →
      ((StdMap.subscript none jsonCommands s).1 = none ∨
        ∃ cmd, (StdMap.subscript none jsonCommands s).1 = some cmd ∧
          ArgumentError sm cmd (argumentOf rest)) →
      WireProtocol.responseTo sm commands v w = mValue.array [mValue.str "fail"]) := by
  refine ⟨?_, ⟨?_, ?_⟩, ?_, ?_, ?_⟩
  · rw [WireProtocol.processOneRequest_step sm commands w v more hgood hin hv]
  · rintro ⟨payload, hp, hresp⟩
    rcases WireProtocol.responseTo_cases sm commands v w hreg with
      h | ⟨p, h⟩ | ⟨p, h⟩ | ⟨rest, id, a, d, hv', hid, ha, hres, _⟩
    · rw [h] at hresp; simp at hresp; exact absurd hresp hp
    · rw [h] at hresp; simp at hresp
    · rw [h] at hresp; simp at hresp
    · exact ⟨rest, id, a, d, hv', hid, ha, hres⟩
  · rintro ⟨rest, id, a, d, hv', hid, ha, hres⟩
    subst hv'
    exact ⟨[mValue.obj [("message", mValue.str d)]], by simp,
      WireProtocol.responseTo_failure sm commands w rest id a d hreg hid ha hres⟩
  · intro rest id a d hv' hid ha hres
    subst hv'
    exact WireProtocol.responseTo_failure sm commands w rest id a d hreg hid ha hres
  · intro payload hresp
    rcases WireProtocol.responseTo_cases sm commands v w hreg with
      h | ⟨p, h⟩ | ⟨p, h⟩ | ⟨rest, id, a, d, _, _, _, _, h⟩
    · rw [h] at hresp; simp at hresp; exact Or.inl hresp
    · rw [h] at hresp; simp at hresp
    · rw [h] at hresp; simp at hresp
    · rw [h] at hresp; simp at hresp; exact Or.inr ⟨d, hresp.symm⟩
  · intro s rest hv' hbad
    subst hv'
    rcases hbad with hc | ⟨cmd, hc, herr⟩
    · exact WireProtocol.responseTo_unknown sm commands w s rest hreg hc
    · have hinv := WireProtocol.invokeCommand_known sm commands w s rest cmd hreg hc
      simp [WireProtocol.responseTo, hinv,
        JSONCommand.run_argument_error sm commands cmd (argumentOf rest) w herr,
        JSONCommand.fail_response]

/-- Witness for C11: an `invoke` of the step the sample engine fails. -/
theorem error_detail_only_from_engine_failure_witness :
    (WireProtocol.processOneRequest sampleStepManager sampleEngine (sampleWorld [(mValue.array (mValue.str "invoke" :: [mValue.obj [("id", mValue.str "2"), ("args", mValue.array [])]]))])).2.stream.output =
      (sampleWorld [(mValue.array (mValue.str "invoke" :: [mValue.obj [("id", mValue.str "2"), ("args", mValue.array [])]]))]).stream.output ++ [WireProtocol.responseTo sampleStepManager sampleEngine (mValue.array (mValue.str "invoke" :: [mValue.obj [("id", mValue.str "2"), ("args", mValue.array [])]])) (sampleWorld [(mValue.array (mValue.str "invoke" :: [mValue.obj [("id", mValue.str "2"), ("args", mValue.array [])]]))])] ∧
    ((∃ payload, payload ≠ [] ∧
        WireProtocol.responseTo sampleStepManager sampleEngine (mValue.array (mValue.str "invoke" :: [mValue.obj [("id", mValue.str "2"), ("args", mValue.array [])]])) (sampleWorld [(mValue.array (mValue.str "invoke" :: [mValue.obj [("id", mValue.str "2"), ("args", mValue.array [])]]))]) =
          mValue.array (mValue.str "fail" :: payload)) ↔
      ∃ rest id a d, (mValue.array (mValue.str "invoke" :: [mValue.obj [("id", mValue.str "2"), ("args", mValue.array [])]])) = mValue.array (mValue.str "invoke" :: rest) ∧
        InvokeCommand.getInvokeId sampleStepManager (argumentOf rest) = some id ∧
        InvokeCommand.getInvokeArgs (argumentOf rest) = some a ∧
        (sampleEngine.invoke id a (sampleWorld [(mValue.array (mValue.str "invoke" :: [mValue.obj [("id", mValue.str "2"), ("args", mValue.array [])]]))]).engine).1 =
          some { type := InvokeResultType.FAILURE, description := d }) ∧
    (∀ rest id a d, (mValue.array (mValue.str "invoke" :: [mValue.obj [("id", mValue.str "2"), ("args", mValue.array [])]])) = mValue.array (mValue.str "invoke" :: rest) →
      InvokeCommand.getInvokeId sampleStepManager (argumentOf rest) = some id →
      InvokeCommand.getInvokeArgs (argumentOf rest) = some a →
      (sampleEngine.invoke id a (sampleWorld [(mValue.array (mValue.str "invoke" :: [mValue.obj [("id", mValue.str "2"), ("args", mValue.array [])]]))]).engine).1 =
        some { type := InvokeResultType.FAILURE, description := d } →
      WireProtocol.responseTo sampleStepManager sampleEngine (mValue.array (mValue.str "invoke" :: [mValue.obj [("id", mValue.str "2"), ("args", mValue.array [])]])) (sampleWorld [(mValue.array (mValue.str "invoke" :: [mValue.obj [("id", mValue.str "2"), ("args", mValue.array [])]]))]) =
        mValue.array [mValue.str "fail", mValue.obj [("message", mValue.str d)]]) ∧
    (∀ payload,
      WireProtocol.responseTo sampleStepManager sampleEngine (mValue.array (mValue.str "invoke" :: [mValue.obj [("id", mValue.str "2"), ("args", mValue.array [])]])) (sampleWorld [(mValue.array (mValue.str "invoke" :: [mValue.obj [("id", mValue.str "2"), ("args", mValue.array [])]]))]) = mValue.array (mValue.str "fail" :: payload) →
      payload = [] ∨ ∃ d, payload = [mValue.obj [("message", mValue.str d)]]) ∧
    (∀ s rest, (mValue.array (mValue.str "invoke" :: [mValue.obj [("id", mValue.str "2"), ("args", mValue.array [])]])) = mValue.array (mValue.str s :: rest) →
      ((StdMap.subscript none jsonCommands s).1 = none ∨
        ∃ cmd, (StdMap.subscript none jsonCommands s).1 = some cmd ∧
          ArgumentError sampleStepManager cmd (argumentOf rest)) →
      WireProtocol.responseTo sampleStepManager sampleEngine (mValue.array (mValue.str "invoke" :: [mValue.obj [("id", mValue.str "2"), ("args", mValue.array [])]])) (sampleWorld [(mValue.array (mValue.str "invoke" :: [mValue.obj [("id", mValue.str "2"), ("args", mValue.array [])]]))]) = mValue.array [mValue.str "fail"]) :=
  error_detail_only_from_engine_failure sampleStepManager sampleEngine
    (sampleWorld [(mValue.array (mValue.str "invoke" :: [mValue.obj [("id", mValue.str "2"), ("args", mValue.array [])]]))])
    (mValue.array (mValue.str "invoke" :: [mValue.obj [("id", mValue.str "2"), ("args", mValue.array [])]])) [] rfl rfl (by intro e; cases e) RegistryIntact_initial

/-- C2, as stated, fails at a decoded JSON null: `processOneRequest` returns
before the dispatcher is reached and nothing is written, so the response is
not `["fail"]`. -/
theorem processOneRequest_null_counterexample :
    (WireProtocol.processOneRequest sampleStepManager sampleEngine
        (sampleWorld [mValue.null])).2.stream.output = [] ∧
    (WireProtocol.processOneRequest sampleStepManager sampleEngine
        (sampleWorld [mValue.null])).2.stream.output ≠ [mValue.array [mValue.str "fail"]] := by
  constructor
  · rfl
  · intro h; cases h

/-- C2 (amended): a decoded value that is not an array whose first element is
a string (JSON null, a bare string, a number, an object, the empty array, an
array starting with a non-string) changes nothing but the stream, so no engine
operation is called; unless the value is JSON null, exactly `["fail"]` is
written for it, and for JSON null nothing is written. -/
theorem processOneRequest_malformed_envelope {σ : Type} (sm : StepManager)
    (commands : CukeCommands σ) (w : World σ) (v : mValue) (rest : List mValue)
    (hgood : w.stream.good = true) (hin : w.stream.input = v :: rest)
    (hshape : ∀ (s : String) (tl : List mValue), v ≠ mValue.array (mValue.str s :: tl)) :
    WireProtocol.processOneRequest sm commands w =
      (some (), { w with stream :=
        { input := rest,
          output := w.stream.output ++
            (if v.is_null then [] else [mValue.array [mValue.str "fail"]]),
          good := true } }) := by
  by_cases hv : v = mValue.null
  · subst hv
    simp [WireProtocol.processOneRequest, World.afterRead, read_stream, hgood, hin,
      mValue.is_null]
  · have hnull : v.is_null = false := by
      cases v <;> simp [mValue.is_null] at hv ⊢
    obtain ⟨h1, h2⟩ := WireProtocol.invokeCommand_malformed sm commands v w hshape
    rw [WireProtocol.processOneRequest_step sm commands w v rest hgood hin hv, h1, h2]
    simp [hnull]

/-- Witness for C2 (amended): a bare string instead of an array. -/
theorem processOneRequest_malformed_envelope_witness :
    WireProtocol.processOneRequest sampleStepManager sampleEngine
        (sampleWorld [mValue.str "begin_scenario"]) =
      (some (), { sampleWorld [mValue.str "begin_scenario"] with stream :=
        { input := [],
          output := (sampleWorld [mValue.str "begin_scenario"]).stream.output ++
            (if (mValue.str "begin_scenario").is_null then []
              else [mValue.array [mValue.str "fail"]]),
          good := true } }) :=
  processOneRequest_malformed_envelope sampleStepManager sampleEngine
    (sampleWorld [mValue.str "begin_scenario"]) (mValue.str "begin_scenario") [] rfl rfl
    (by intro s tl h; cases h)

/-- C3: in a world whose registry is intact, a request array whose first
element is one of the five command names is answered by running the handler
registered for that name, each name its own, on the argument value (the
second element of the array, or null when there is none); for any other
string the dispatcher returns exactly `["fail"]` whatever follows, and only
the registry entry for that string may change: no engine operation is
called. -/
theorem invokeCommand_dispatch {σ : Type} (sm : StepManager) (commands : CukeCommands σ)
    (w : World σ) (rest : List mValue) (hreg : RegistryIntact w.jsonCommands) :
    WireProtocol.invokeCommand sm commands
        (mValue.array (mValue.str "begin_scenario" :: rest)) w =
      BeginScenarioCommand.run commands (argumentOf rest) w ∧
    WireProtocol.invokeCommand sm commands
        (mValue.array (mValue.str "end_scenario" :: rest)) w =
      EndScenarioCommand.run commands (argumentOf rest) w ∧
    WireProtocol.invokeCommand sm commands
        (mValue.array (mValue.str "step_matches" :: rest)) w =
      StepMatchesCommand.run sm commands (argumentOf rest) w ∧
    WireProtocol.invokeCommand sm commands
        (mValue.array (mValue.str "invoke" :: rest)) w =
      InvokeCommand.run sm commands (argumentOf rest) w ∧
    WireProtocol.invokeCommand sm commands
        (mValue.array (mValue.str "snippet_text" :: rest)) w =
      SnippetTextCommand.run commands (argumentOf rest) w ∧
    (∀ s : String, s ≠ "begin_scenario" → s ≠ "end_scenario" → s ≠ "step_matches" →
        s ≠ "invoke" → s ≠ "snippet_text" →
      WireProtocol.invokeCommand sm commands (mValue.array (mValue.str s :: rest)) w =
        (some (mValue.array [mValue.str "fail"]),
          { w with jsonCommands := (StdMap.subscript none w.jsonCommands s).2 })) := by
  refine ⟨?_, ?_, ?_, ?_, ?_, ?_⟩
  · exact WireProtocol.invokeCommand_known sm commands w "begin_scenario" rest
      JSONCommand.BeginScenarioCommand hreg rfl
  · exact WireProtocol.invokeCommand_known sm commands w "end_scenario" rest
      JSONCommand.EndScenarioCommand hreg rfl
  · exact WireProtocol.invokeCommand_known sm commands w "step_matches" rest
      JSONCommand.StepMatchesCommand hreg rfl
  · exact WireProtocol.invokeCommand_known sm commands w "invoke" rest
      JSONCommand.InvokeCommand hreg rfl
  · exact WireProtocol.invokeCommand_known sm commands w "snippet_text" rest
      JSONCommand.SnippetTextCommand hreg rfl
  · intro s n1 n2 n3 n4 n5
    have hnone : (StdMap.subscript none jsonCommands s).1 = none := by
      simp [StdMap.subscript, StdMap.find, jsonCommands, Ne.symm n1, Ne.symm n2, Ne.symm n3,
        Ne.symm n4, Ne.symm n5]
    have h1 : (StdMap.subscript none w.jsonCommands s).1 = none := (hreg s).trans hnone
    simp [WireProtocol.invokeCommand, mValue.get_array, mValue.get_str, h1,
      JSONCommand.fail_response]

/-- Witness for C3: the initial registry and the argument `{"tags": ["a"]}`,
on which `begin_scenario` and `end_scenario` call the engine and answer
`["success"]` while the other three handlers throw. -/
theorem invokeCommand_dispatch_witness :
    WireProtocol.invokeCommand sampleStepManager sampleEngine
        (mValue.array (mValue.str "begin_scenario" :: [mValue.obj [("tags", mValue.array [mValue.str "a"])]])) (sampleWorld []) =
      BeginScenarioCommand.run sampleEngine (argumentOf [mValue.obj [("tags", mValue.array [mValue.str "a"])]]) (sampleWorld []) ∧
    WireProtocol.invokeCommand sampleStepManager sampleEngine
        (mValue.array (mValue.str "end_scenario" :: [mValue.obj [("tags", mValue.array [mValue.str "a"])]])) (sampleWorld []) =
      EndScenarioCommand.run sampleEngine (argumentOf [mValue.obj [("tags", mValue.array [mValue.str "a"])]]) (sampleWorld []) ∧
    WireProtocol.invokeCommand sampleStepManager sampleEngine
        (mValue.array (mValue.str "step_matches" :: [mValue.obj [("tags", mValue.array [mValue.str "a"])]])) (sampleWorld []) =
      StepMatchesCommand.run sampleStepManager sampleEngine (argumentOf [mValue.obj [("tags", mValue.array [mValue.str "a"])]]) (sampleWorld []) ∧
    WireProtocol.invokeCommand sampleStepManager sampleEngine
        (mValue.array (mValue.str "invoke" :: [mValue.obj [("tags", mValue.array [mValue.str "a"])]])) (sampleWorld []) =
      InvokeCommand.run sampleStepManager sampleEngine (argumentOf [mValue.obj [("tags", mValue.array [mValue.str "a"])]]) (sampleWorld []) ∧
    WireProtocol.invokeCommand sampleStepManager sampleEngine
        (mValue.array (mValue.str "snippet_text" :: [mValue.obj [("tags", mValue.array [mValue.str "a"])]])) (sampleWorld []) =
      SnippetTextCommand.run sampleEngine (argumentOf [mValue.obj [("tags", mValue.array [mValue.str "a"])]]) (sampleWorld []) ∧
    (∀ s : String, s ≠ "begin_scenario" → s ≠ "end_scenario" → s ≠ "step_matches" →
        s ≠ "invoke" → s ≠ "snippet_text" →
      WireProtocol.invokeCommand sampleStepManager sampleEngine (mValue.array (mValue.str s :: [mValue.obj [("tags", mValue.array [mValue.str "a"])]])) (sampleWorld []) =
        (some (mValue.array [mValue.str "fail"]),
          { (sampleWorld []) with jsonCommands := (StdMap.subscript none (sampleWorld []).jsonCommands s).2 })) :=
  invokeCommand_dispatch sampleStepManager sampleEngine (sampleWorld [])
    [mValue.obj [("tags", mValue.array [mValue.str "a"])]] RegistryIntact_initial

/-- C5, as stated, fails at the argument `{}`: the condition of
`EndScenarioCommand::run` is false for an object without a non-null `tags`,
so the response is `["fail"]` and the engine is not called; and it fails at
`{"tags": ["x"]}`, which is answered `["success"]`. -/
theorem EndScenarioCommand_empty_object_counterexample :
    EndScenarioCommand.run sampleEngine (mValue.obj []) (sampleWorld []) =
        (some (mValue.array [mValue.str "fail"]), sampleWorld []) ∧
    (EndScenarioCommand.run sampleEngine (mValue.obj []) (sampleWorld [])).1 ≠
        some (mValue.array [mValue.str "success"]) ∧
    (EndScenarioCommand.run sampleEngine
        (mValue.obj [("tags", mValue.array [mValue.str "x"])]) (sampleWorld [])).1 =
      some (mValue.array [mValue.str "success"]) ∧
    (EndScenarioCommand.run sampleEngine
        (mValue.obj [("tags", mValue.array [mValue.str "x"])]) (sampleWorld [])).1 ≠
      some (mValue.array [mValue.str "fail"]) := by
  refine ⟨rfl, ?_, rfl, ?_⟩
  · intro h
    simp [EndScenarioCommand.run, EndScenarioCommand.condition, mValue.is_null, mValue.get_obj,
      mObject.subscript, StdMap.subscript, StdMap.find, JSONCommand.fail_response] at h
  · intro h
    simp [EndScenarioCommand.run, EndScenarioCommand.condition, mValue.is_null, mValue.get_obj,
      mObject.subscript, StdMap.subscript, StdMap.find, JSONCommand.success_response,
      World.engineCall, sampleEngine] at h

/-- C5 (amended): with a null argument `end_scenario` calls the engine's
`endScenario` once and, when it returns, answers `["success"]`; with an
object argument it does exactly the same when the object's `tags` field is
present and non-null, and answers `["fail"]` without calling the engine when
`tags` is null or absent. So `{}` gives `["fail"]` and `{"tags":["x"]}` gives
what null gives, `["success"]` when the engine returns. -/
theorem EndScenarioCommand_run_cases {σ : Type} (commands : CukeCommands σ) (w : World σ)
    (o : mObject) :
    EndScenarioCommand.run commands mValue.null w =
      ((commands.endScenario w.engine).1.map (fun _ => mValue.array [mValue.str "success"]),
        { w with
          engine := (commands.endScenario w.engine).2,
          calls := w.calls ++
            [{ call := EngineCall.endScenario,
               raised := (commands.endScenario w.engine).1.isNone }] }) ∧
    EndScenarioCommand.run commands (mValue.obj o) w =
      (if (mObject.subscript o "tags").is_null then
        (some (mValue.array [mValue.str "fail"]), w)
       else EndScenarioCommand.run commands mValue.null w) ∧
    EndScenarioCommand.run commands (mValue.obj []) w =
      (some (mValue.array [mValue.str "fail"]), w) ∧
    EndScenarioCommand.run commands (mValue.obj [("tags", mValue.array [mValue.str "x"])]) w =
      EndScenarioCommand.run commands mValue.null w := by
  have hobj : (mValue.obj o).is_null = false := rfl
  have hnull : (mValue.null).is_null = true := rfl
  refine ⟨?_, ?_, ?_, ?_⟩
  · simp only [EndScenarioCommand.run, EndScenarioCommand.condition, hnull, if_true,
      World.engineCall]
    cases h : (commands.endScenario w.engine).1 <;> simp [h, JSONCommand.success_response]
  · simp only [EndScenarioCommand.run, EndScenarioCommand.condition, hobj, hnull, mValue.get_obj]
    cases (mObject.subscript o "tags").is_null <;> simp [JSONCommand.fail_response]
  · simp [EndScenarioCommand.run, EndScenarioCommand.condition, mValue.is_null, mValue.get_obj,
      mObject.subscript, StdMap.subscript, StdMap.find, StdMap.insert, JSONCommand.fail_response]
  · simp [EndScenarioCommand.run, EndScenarioCommand.condition, mValue.is_null, mValue.get_obj,
      mObject.subscript, StdMap.subscript, StdMap.find]

/-- The registry after dispatching an array that starts with the string `s`
is the one the lookup of `s` left. -/
theorem WireProtocol.invokeCommand_jsonCommands_named {σ : Type} (sm : StepManager)
    (commands : CukeCommands σ) (s : String) (rest : List mValue) (w : World σ) :
    (WireProtocol.invokeCommand sm commands
        (mValue.array (mValue.str s :: rest)) w).2.jsonCommands =
      (StdMap.subscript none w.jsonCommands s).2 := by
  simp only [WireProtocol.invokeCommand, mValue.get_array, mValue.get_str,
    List.getD_cons_zero, List.length_cons, gt_iff_lt, Nat.zero_lt_succ, if_true]
  split
  · exact (JSONCommand.run_frame sm commands _ _ _).1
  · rfl

/-- Dispatching a request leaves every lookup in the registry answering as
before. -/
theorem WireProtocol.invokeCommand_lookups {σ : Type} (sm : StepManager)
    (commands : CukeCommands σ) (v : mValue) (w : World σ) (s : String) :
    (StdMap.subscript none (WireProtocol.invokeCommand sm commands v w).2.jsonCommands s).1 =
      (StdMap.subscript none w.jsonCommands s).1 := by
  rcases WireProtocol.invokeCommand_jsonCommands sm commands v w with h | ⟨k, _, _, h⟩
  · rw [h]
  · rw [h]; exact StdMap.subscript_subscript_fst none _ k s

/-- C15 (amended): dispatching a request leaves every lookup in
`jsonCommands` answering as before, so the five names keep their handlers and
no other name gets one. The mapping itself is left exactly as it was, except
that a request which is an array whose first element is a string not yet a
key of the mapping makes it gain exactly one entry, that string with a null
handler, at every such request. -/
theorem invokeCommand_registry_lookups {σ : Type} (sm : StepManager)
    (commands : CukeCommands σ) (v : mValue) (w : World σ) :
    (∀ s : String,
      (StdMap.subscript none (WireProtocol.invokeCommand sm commands v w).2.jsonCommands s).1 =
        (StdMap.subscript none w.jsonCommands s).1) ∧
    (WireProtocol.invokeCommand sm commands v w).2.jsonCommands =
      (match v with
        | mValue.array (mValue.str s :: _) =>
          if (StdMap.find w.jsonCommands s).isSome then w.jsonCommands
          else w.jsonCommands ++ [(s, none)]
        | _ => w.jsonCommands) := by
  refine ⟨WireProtocol.invokeCommand_lookups sm commands v w, ?_⟩
  cases v with
  | array a =>
    cases a with
    | nil => simp [WireProtocol.invokeCommand, mValue.get_array]
    | cons x tl =>
      cases x with
      | str s =>
        rw [WireProtocol.invokeCommand_jsonCommands_named]
        simp only [StdMap.subscript, StdMap.insert]
        cases h : StdMap.find w.jsonCommands s <;> simp [h]
      | _ => simp [WireProtocol.invokeCommand, mValue.get_array, mValue.get_str]
  | _ => simp [WireProtocol.invokeCommand, mValue.get_array]

/-- A request naming a command the registry holds is handed to that command
with the argument value of the request. -/
theorem WireProtocol.invokeCommand_found {σ : Type} (sm : StepManager)
    (commands : CukeCommands σ) (w : World σ) (s : String) (rest : List mValue)
    (c : JSONCommand) (h1 : (StdMap.subscript none w.jsonCommands s).1 = some c) :
    WireProtocol.invokeCommand sm commands (mValue.array (mValue.str s :: rest)) w =
      JSONCommand.run sm commands c (argumentOf rest) w := by
  have h2 := StdMap.subscript_some w.jsonCommands s c h1
  simp only [WireProtocol.invokeCommand, mValue.get_array, mValue.get_str, List.getD_cons_zero,
    List.length_cons, gt_iff_lt, Nat.zero_lt_succ, if_true, h1, h2]
  cases rest <;> simp [argumentOf]

/-- C1, as stated, fails at an `invoke` whose `args` hold a table: while the
arguments are decoded `get_str` throws on the table element, `getInvokeArgs`
catches that error and decodes the element as a table, and the response is
`["success"]`, not `["fail"]`. -/
theorem caught_decoding_error_counterexample :
    (encodeTable ["a"] [["1"]]).get_str = none ∧
    InvokeCommand.getInvokeArgs
        (mValue.obj [("id", mValue.str "1"),
          ("args", mValue.array [encodeTable ["a"] [["1"]]])]) =
      some { args := [], tableArg := { columns := ["a"], rows := [["1"]] } } ∧
    (WireProtocol.processOneRequest sampleStepManager sampleEngine
        (sampleWorld [(mValue.array [mValue.str "invoke",
          mValue.obj [("id", mValue.str "1"),
            ("args", mValue.array [encodeTable ["a"] [["1"]]])]])])).2.stream.output =
      [mValue.array [mValue.str "success"]] ∧
    (WireProtocol.processOneRequest sampleStepManager sampleEngine
        (sampleWorld [(mValue.array [mValue.str "invoke",
          mValue.obj [("id", mValue.str "1"),
            ("args", mValue.array [encodeTable ["a"] [["1"]]])]])])).2.stream.output ≠
      [mValue.array [mValue.str "fail"]] := by
  refine ⟨rfl, rfl, rfl, ?_⟩
  intro h
  have h0 : (WireProtocol.processOneRequest sampleStepManager sampleEngine
        (sampleWorld [(mValue.array [mValue.str "invoke",
          mValue.obj [("id", mValue.str "1"),
            ("args", mValue.array [encodeTable ["a"] [["1"]]])]])])).2.stream.output =
      [mValue.array [mValue.str "success"]] := rfl
  rw [h0] at h
  simp at h

/-- C1 (amended): for a non-null decoded request, whatever the engine does,
`processOneRequest` returns normally and writes exactly one response, the one
`invokeCommand` returned; the response is exactly `["fail"]` whenever an error
leaves `invokeCommand`, and so whenever the envelope fails to decode (not an
array, or a first element that is not a string), the command lookup gives a
null pointer, the argument has an argument error, or the single engine call
raised. The `get_str` failure that `getInvokeArgs` catches to tell a table
from a string does not leave `invokeCommand`. -/
theorem processOneRequest_fail_safe {σ : Type} (sm : StepManager) (commands : CukeCommands σ)
    (w : World σ) (v : mValue) (rest : List mValue)
    (hgood : w.stream.good = true) (hin : w.stream.input = v :: rest)
    (hv : v ≠ mValue.null) :
    ∃ (response : mValue) (w' : World σ),
      WireProtocol.processOneRequest sm commands w = (some (), w') ∧
      w'.stream.output = w.stream.output ++ [response] ∧
      ((WireProtocol.invokeCommand sm commands v w.afterRead).1 = none →
          response = mValue.array [mValue.str "fail"]) ∧
      (∀ r, (WireProtocol.invokeCommand sm commands v w.afterRead).1 = some r →
          response = r) ∧
      (w'.calls = w.calls ∨
        ∃ ev, w'.calls = w.calls ++ [ev] ∧
          (ev.raised = true → response = mValue.array [mValue.str "fail"])) ∧
      (v.get_array = none → response = mValue.array [mValue.str "fail"]) ∧
      (∀ a, v.get_array = some a → a ≠ [] → (a.getD 0 mValue.null).get_str = none →
          response = mValue.array [mValue.str "fail"]) ∧
      (∀ s tl, v = mValue.array (mValue.str s :: tl) →
          (StdMap.subscript none w.jsonCommands s).1 = none →
          response = mValue.array [mValue.str "fail"]) ∧
      (∀ s tl cmd, v = mValue.array (mValue.str s :: tl) →
          (StdMap.subscript none w.jsonCommands s).1 = some cmd →
          ArgumentError sm cmd (argumentOf tl) →
          response = mValue.array [mValue.str "fail"]) := by
  obtain ⟨hs, hc⟩ := WireProtocol.invokeCommand_frame sm commands v w.afterRead
  have hout : w.afterRead.stream.output = w.stream.output := by
    simp [World.afterRead, read_stream, hgood, hin]
  have hcalls : w.afterRead.calls = w.calls := rfl
  have hfail : JSONCommand.fail_response = mValue.array [mValue.str "fail"] := rfl
  have hthrown : (WireProtocol.invokeCommand sm commands v w.afterRead).1 = none →
      (WireProtocol.invokeCommand sm commands v w.afterRead).1.getD JSONCommand.fail_response =
        mValue.array [mValue.str "fail"] := by
    intro h; rw [h]; rfl
  refine ⟨(WireProtocol.invokeCommand sm commands v w.afterRead).1.getD JSONCommand.fail_response,
    _, WireProtocol.processOneRequest_eq sm commands w v rest hgood hin hv,
    ?_, hthrown, ?_, ?_, ?_, ?_, ?_, ?_⟩
  · simp [write_stream, hs, hout]
  · intro r h; simp [h]
  · rcases hc with hc | ⟨ev, hev, hraise⟩
    · left; simpa [hcalls] using hc.1
    · right
      exact ⟨ev, by simpa [hcalls] using hev, fun h => hthrown (hraise h)⟩
  · intro h
    apply hthrown
    simp [WireProtocol.invokeCommand, h]
  · intro a ha hne hstr
    apply hthrown
    have hlen : a.length > 0 := List.length_pos.2 hne
    simp only [WireProtocol.invokeCommand, ha, if_pos hlen, hstr]
  · intro s tl hv' hlook
    subst hv'
    have hlook' : (StdMap.subscript none w.afterRead.jsonCommands s).1 = none := hlook
    simp [WireProtocol.invokeCommand, mValue.get_array, mValue.get_str, hlook', hfail]
  · intro s tl cmd hv' hlook herr
    subst hv'
    apply hthrown
    rw [WireProtocol.invokeCommand_found sm commands w.afterRead s tl cmd hlook,
      JSONCommand.run_argument_error sm commands cmd (argumentOf tl) w.afterRead herr]

/-- Witness for C1 (amended): the request `["begin_scenario"]` on an engine
whose every operation throws. -/
theorem processOneRequest_fail_safe_witness :
    ∃ (response : mValue) (w' : World Nat),
      WireProtocol.processOneRequest sampleStepManager throwingEngine (sampleWorld [(mValue.array [mValue.str "begin_scenario"])]) = (some (), w') ∧
      w'.stream.output = (sampleWorld [(mValue.array [mValue.str "begin_scenario"])]).stream.output ++ [response] ∧
      ((WireProtocol.invokeCommand sampleStepManager throwingEngine (mValue.array [mValue.str "begin_scenario"]) (sampleWorld [(mValue.array [mValue.str "begin_scenario"])]).afterRead).1 = none →
          response = mValue.array [mValue.str "fail"]) ∧
      (∀ r, (WireProtocol.invokeCommand sampleStepManager throwingEngine (mValue.array [mValue.str "begin_scenario"]) (sampleWorld [(mValue.array [mValue.str "begin_scenario"])]).afterRead).1 = some r →
          response = r) ∧
      (w'.calls = (sampleWorld [(mValue.array [mValue.str "begin_scenario"])]).calls ∨
        ∃ ev, w'.calls = (sampleWorld [(mValue.array [mValue.str "begin_scenario"])]).calls ++ [ev] ∧
          (ev.raised = true → response = mValue.array [mValue.str "fail"])) ∧
      ((mValue.array [mValue.str "begin_scenario"]).get_array = none → response = mValue.array [mValue.str "fail"]) ∧
      (∀ a, (mValue.array [mValue.str "begin_scenario"]).get_array = some a → a ≠ [] → (a.getD 0 mValue.null).get_str = none →
          response = mValue.array [mValue.str "fail"]) ∧
      (∀ s tl, (mValue.array [mValue.str "begin_scenario"]) = mValue.array (mValue.str s :: tl) →
          (StdMap.subscript none (sampleWorld [(mValue.array [mValue.str "begin_scenario"])]).jsonCommands s).1 = none →
          response = mValue.array [mValue.str "fail"]) ∧
      (∀ s tl cmd, (mValue.array [mValue.str "begin_scenario"]) = mValue.array (mValue.str s :: tl) →
          (StdMap.subscript none (sampleWorld [(mValue.array [mValue.str "begin_scenario"])]).jsonCommands s).1 = some cmd →
          ArgumentError sampleStepManager cmd (argumentOf tl) →
          response = mValue.array [mValue.str "fail"]) :=
  processOneRequest_fail_safe sampleStepManager throwingEngine
    (sampleWorld [(mValue.array [mValue.str "begin_scenario"])])
    (mValue.array [mValue.str "begin_scenario"]) [] rfl rfl (by intro h; cases h)

/-- The response of a command and the engine state it leaves depend on the
world only through the engine state. -/
theorem JSONCommand.run_congr_engine {σ : Type} (sm : StepManager)
    (commands : CukeCommands σ) (cmd : JSONCommand) (args : mValue) (w1 w2 : World σ)
    (he : w1.engine = w2.engine) :
    (JSONCommand.run sm commands cmd args w1).1 = (JSONCommand.run sm commands cmd args w2).1 ∧
    (JSONCommand.run sm commands cmd args w1).2.engine =
      (JSONCommand.run sm commands cmd args w2).2.engine := by
  cases cmd <;>
    simp only [JSONCommand.run, BeginScenarioCommand.run, EndScenarioCommand.run,
      StepMatchesCommand.run, InvokeCommand.run, SnippetTextCommand.run, World.engineCall, he] <;>
    (repeat' split) <;> simp_all

/-- The response of the dispatcher and the engine state it leaves depend on
the world only through the engine state and the answers of the registry. -/
theorem WireProtocol.invokeCommand_congr {σ : Type} (sm : StepManager)
    (commands : CukeCommands σ) (q : mValue) (w1 w2 : World σ)
    (he : w1.engine = w2.engine)
    (hl : ∀ s : String, (StdMap.subscript none w1.jsonCommands s).1 =
      (StdMap.subscript none w2.jsonCommands s).1) :
    (WireProtocol.invokeCommand sm commands q w1).1 =
        (WireProtocol.invokeCommand sm commands q w2).1 ∧
    (WireProtocol.invokeCommand sm commands q w1).2.engine =
        (WireProtocol.invokeCommand sm commands q w2).2.engine := by
  unfold WireProtocol.invokeCommand
  split
  · exact ⟨rfl, he⟩
  · split
    · split
      · exact ⟨rfl, he⟩
      · rename_i s _
        simp only [hl s]
        cases (StdMap.subscript none w2.jsonCommands s).1 with
        | none => exact ⟨rfl, he⟩
        | some c => exact JSONCommand.run_congr_engine sm commands c _ _ _ he
    · exact ⟨rfl, he⟩

theorem WireProtocol.responses_congr {σ : Type} (sm : StepManager)
    (commands : CukeCommands σ) (qs : List mValue) (w1 w2 : World σ)
    (he : w1.engine = w2.engine)
    (hl : ∀ s : String, (StdMap.subscript none w1.jsonCommands s).1 =
      (StdMap.subscript none w2.jsonCommands s).1) :
    WireProtocol.responses sm commands qs w1 = WireProtocol.responses sm commands qs w2 := by
  induction qs generalizing w1 w2 with
  | nil => rfl
  | cons q qs ih =>
    obtain ⟨h1, h2⟩ := WireProtocol.invokeCommand_congr sm commands q w1 w2 he hl
    simp only [WireProtocol.responses, WireProtocol.responseTo, h1]
    rw [ih _ _ h2 (fun s => by
      rw [WireProtocol.invokeCommand_lookups, WireProtocol.invokeCommand_lookups]; exact hl s)]

theorem WireProtocol.dispatchAll_lookups {σ : Type} (sm : StepManager)
    (commands : CukeCommands σ) (qs : List mValue) (w : World σ) (s : String) :
    (StdMap.subscript none (WireProtocol.dispatchAll sm commands qs w).jsonCommands s).1 =
      (StdMap.subscript none w.jsonCommands s).1 := by
  induction qs generalizing w with
  | nil => rfl
  | cons q qs ih =>
    simp only [WireProtocol.dispatchAll]
    rw [ih, WireProtocol.invokeCommand_lookups]

/-- A rejected request is answered with `["fail"]` and leaves the engine and
the trace of engine calls as they were. -/
theorem WireProtocol.invokeCommand_rejected {σ : Type} (sm : StepManager)
    (commands : CukeCommands σ) (q : mValue) (w : World σ)
    (h : RejectedRequest sm w.jsonCommands q) :
    WireProtocol.responseTo sm commands q w = mValue.array [mValue.str "fail"] ∧
    (WireProtocol.invokeCommand sm commands q w).2.engine = w.engine ∧
    (WireProtocol.invokeCommand sm commands q w).2.calls = w.calls := by
  rcases h with hshape | ⟨s, tl, hq, hnone | ⟨cmd, hcmd, herr⟩⟩
  · obtain ⟨h1, h2⟩ := WireProtocol.invokeCommand_malformed sm commands q w hshape
    exact ⟨h2, by rw [h1], by rw [h1]⟩
  · subst hq
    simp [WireProtocol.responseTo, WireProtocol.invokeCommand, mValue.get_array,
      mValue.get_str, hnone, JSONCommand.fail_response]
  · subst hq
    rw [WireProtocol.responseTo, WireProtocol.invokeCommand_found sm commands w s tl cmd hcmd,
      JSONCommand.run_argument_error sm commands cmd (argumentOf tl) w herr]
    exact ⟨rfl, rfl, rfl⟩

/-- C17, as stated, fails at a request answered `["fail"]` because its
engine call raised: the engine state that call left is the one the next
request is answered in, so the answer to the request that follows differs
from the answer it gets without the failing request. -/
theorem raised_engine_call_counterexample :
    (WireProtocol.processStream sampleStepManager moodyEngine 4
        (sampleWorld [mValue.array [mValue.str "begin_scenario"],
          mValue.array [mValue.str "snippet_text", mValue.obj [("step_keyword", mValue.str "Given"), ("step_name", mValue.str "a cuke")]]])).map
        (fun r => r.2.stream.output) =
      some [mValue.array [mValue.str "fail"],
        mValue.array [mValue.str "success", mValue.str "stale"]] ∧
    (WireProtocol.processStream sampleStepManager moodyEngine 3
        (sampleWorld [mValue.array [mValue.str "snippet_text", mValue.obj [("step_keyword", mValue.str "Given"), ("step_name", mValue.str "a cuke")]]])).map
        (fun r => r.2.stream.output) =
      some [mValue.array [mValue.str "success", mValue.str "fresh"]] ∧
    mValue.array [mValue.str "success", mValue.str "stale"] ≠
      mValue.array [mValue.str "success", mValue.str "fresh"] := by
  refine ⟨rfl, rfl, ?_⟩
  intro h
  simp at h

/-- C17 (amended): on a stream that delivers the non-null decoded values
`qs`, the loop, given enough fuel, ends normally having written exactly one
response per request, in request order, each the response of the dispatcher
to that request in the world the earlier requests left. A request rejected
before any engine operation (a malformed envelope such as a bare string, an
unknown command, an argument error) is answered `["fail"]` and the responses
around it are those the sequence without it would get; more generally a
request that leaves the engine state as it was does not alter the answers
that follow. -/
theorem processStream_one_response_per_request {σ : Type} (sm : StepManager)
    (commands : CukeCommands σ) (qs : List mValue) (w : World σ) (fuel : Nat)
    (hgood : w.stream.good = true) (hin : w.stream.input = qs)
    (hnn : ∀ q, q ∈ qs → q ≠ mValue.null) (hfuel : qs.length + 2 ≤ fuel) :
    ∃ w' : World σ,
      WireProtocol.processStream sm commands fuel w = some (some (), w') ∧
      w'.stream.output = w.stream.output ++ WireProtocol.responses sm commands qs w ∧
      (WireProtocol.responses sm commands qs w).length = qs.length ∧
      (∀ (before : List mValue) (q : mValue) (after : List mValue),
        qs = before ++ q :: after →
        WireProtocol.responses sm commands qs w =
          WireProtocol.responses sm commands before w ++
            WireProtocol.responseTo sm commands q
                (WireProtocol.dispatchAll sm commands before w) ::
              WireProtocol.responses sm commands after
                (WireProtocol.dispatchAll sm commands (before ++ [q]) w)) ∧
      (∀ (before : List mValue) (bad : mValue) (after : List mValue),
        qs = before ++ bad :: after →
        RejectedRequest sm w.jsonCommands bad →
        WireProtocol.responses sm commands qs w =
          WireProtocol.responses sm commands before w ++
            mValue.array [mValue.str "fail"] ::
              WireProtocol.responses sm commands after
                (WireProtocol.dispatchAll sm commands before w) ∧
        WireProtocol.responses sm commands (before ++ after) w =
          WireProtocol.responses sm commands before w ++
            WireProtocol.responses sm commands after
              (WireProtocol.dispatchAll sm commands before w)) ∧
      (∀ (before : List mValue) (q : mValue) (after : List mValue),
        qs = before ++ q :: after →
        (WireProtocol.invokeCommand sm commands q
            (WireProtocol.dispatchAll sm commands before w)).2.engine =
          (WireProtocol.dispatchAll sm commands before w).engine →
        WireProtocol.responses sm commands after
            (WireProtocol.dispatchAll sm commands (before ++ [q]) w) =
          WireProtocol.responses sm commands after
            (WireProtocol.dispatchAll sm commands before w)) := by
  refine ⟨_, WireProtocol.processStream_eq sm commands qs w fuel hgood hin hnn hfuel, rfl,
    WireProtocol.responses_length sm commands qs w, ?_, ?_, ?_⟩
  · intro before q after hqs
    subst hqs
    rw [WireProtocol.responses_append, WireProtocol.dispatchAll_append]
    rfl
  · intro before bad after hqs hbad
    subst hqs
    have hbad' : RejectedRequest sm
        (WireProtocol.dispatchAll sm commands before w).jsonCommands bad := by
      rcases hbad with h | ⟨s, tl, hq, h⟩
      · exact Or.inl h
      · refine Or.inr ⟨s, tl, hq, ?_⟩
        rw [WireProtocol.dispatchAll_lookups]
        exact h
    obtain ⟨h1, h2, _⟩ := WireProtocol.invokeCommand_rejected sm commands bad
      (WireProtocol.dispatchAll sm commands before w) hbad'
    refine ⟨?_, WireProtocol.responses_append sm commands before after w⟩
    rw [WireProtocol.responses_append]
    simp only [WireProtocol.responses, h1]
    rw [WireProtocol.responses_congr sm commands after _
      (WireProtocol.dispatchAll sm commands before w) h2
      (WireProtocol.invokeCommand_lookups sm commands bad _)]
  · intro before q after _ heng
    rw [WireProtocol.dispatchAll_append]
    exact WireProtocol.responses_congr sm commands after _
      (WireProtocol.dispatchAll sm commands before w) heng
      (WireProtocol.invokeCommand_lookups sm commands q _)

/-- Witness for C17 (amended): a bare string, an unknown command, then
`end_scenario`, on the sample engine. -/
theorem processStream_one_response_per_request_witness :
    ∃ w' : World Nat,
      WireProtocol.processStream sampleStepManager sampleEngine 5 (sampleWorld [mValue.str "x", mValue.array [mValue.str "foo"], mValue.array [mValue.str "end_scenario"]]) = some (some (), w') ∧
      w'.stream.output = (sampleWorld [mValue.str "x", mValue.array [mValue.str "foo"], mValue.array [mValue.str "end_scenario"]]).stream.output ++ WireProtocol.responses sampleStepManager sampleEngine [mValue.str "x", mValue.array [mValue.str "foo"], mValue.array [mValue.str "end_scenario"]] (sampleWorld [mValue.str "x", mValue.array [mValue.str "foo"], mValue.array [mValue.str "end_scenario"]]) ∧
      (WireProtocol.responses sampleStepManager sampleEngine [mValue.str "x", mValue.array [mValue.str "foo"], mValue.array [mValue.str "end_scenario"]] (sampleWorld [mValue.str "x", mValue.array [mValue.str "foo"], mValue.array [mValue.str "end_scenario"]])).length = [mValue.str "x", mValue.array [mValue.str "foo"], mValue.array [mValue.str "end_scenario"]].length ∧
      (∀ (before : List mValue) (q : mValue) (after : List mValue),
        [mValue.str "x", mValue.array [mValue.str "foo"], mValue.array [mValue.str "end_scenario"]] = before ++ q :: after →
        WireProtocol.responses sampleStepManager sampleEngine [mValue.str "x", mValue.array [mValue.str "foo"], mValue.array [mValue.str "end_scenario"]] (sampleWorld [mValue.str "x", mValue.array [mValue.str "foo"], mValue.array [mValue.str "end_scenario"]]) =
          WireProtocol.responses sampleStepManager sampleEngine before (sampleWorld [mValue.str "x", mValue.array [mValue.str "foo"], mValue.array [mValue.str "end_scenario"]]) ++
            WireProtocol.responseTo sampleStepManager sampleEngine q
                (WireProtocol.dispatchAll sampleStepManager sampleEngine before (sampleWorld [mValue.str "x", mValue.array [mValue.str "foo"], mValue.array [mValue.str "end_scenario"]])) ::
              WireProtocol.responses sampleStepManager sampleEngine after
                (WireProtocol.dispatchAll sampleStepManager sampleEngine (before ++ [q]) (sampleWorld [mValue.str "x", mValue.array [mValue.str "foo"], mValue.array [mValue.str "end_scenario"]]))) ∧
      (∀ (before : List mValue) (bad : mValue) (after : List mValue),
        [mValue.str "x", mValue.array [mValue.str "foo"], mValue.array [mValue.str "end_scenario"]] = before ++ bad :: after →
        RejectedRequest sampleStepManager (sampleWorld [mValue.str "x", mValue.array [mValue.str "foo"], mValue.array [mValue.str "end_scenario"]]).jsonCommands bad →
        WireProtocol.responses sampleStepManager sampleEngine [mValue.str "x", mValue.array [mValue.str "foo"], mValue.array [mValue.str "end_scenario"]] (sampleWorld [mValue.str "x", mValue.array [mValue.str "foo"], mValue.array [mValue.str "end_scenario"]]) =
          WireProtocol.responses sampleStepManager sampleEngine before (sampleWorld [mValue.str "x", mValue.array [mValue.str "foo"], mValue.array [mValue.str "end_scenario"]]) ++
            mValue.array [mValue.str "fail"] ::
              WireProtocol.responses sampleStepManager sampleEngine after
                (WireProtocol.dispatchAll sampleStepManager sampleEngine before (sampleWorld [mValue.str "x", mValue.array [mValue.str "foo"], mValue.array [mValue.str "end_scenario"]])) ∧
        WireProtocol.responses sampleStepManager sampleEngine (before ++ after) (sampleWorld [mValue.str "x", mValue.array [mValue.str "foo"], mValue.array [mValue.str "end_scenario"]]) =
          WireProtocol.responses sampleStepManager sampleEngine before (sampleWorld [mValue.str "x", mValue.array [mValue.str "foo"], mValue.array [mValue.str "end_scenario"]]) ++
            WireProtocol.responses sampleStepManager sampleEngine after
              (WireProtocol.dispatchAll sampleStepManager sampleEngine before (sampleWorld [mValue.str "x", mValue.array [mValue.str "foo"], mValue.array [mValue.str "end_scenario"]]))) ∧
      (∀ (before : List mValue) (q : mValue) (after : List mValue),
        [mValue.str "x", mValue.array [mValue.str "foo"], mValue.array [mValue.str "end_scenario"]] = before ++ q :: after →
        (WireProtocol.invokeCommand sampleStepManager sampleEngine q
            (WireProtocol.dispatchAll sampleStepManager sampleEngine before (sampleWorld [mValue.str "x", mValue.array [mValue.str "foo"], mValue.array [mValue.str "end_scenario"]]))).2.engine =
          (WireProtocol.dispatchAll sampleStepManager sampleEngine before (sampleWorld [mValue.str "x", mValue.array [mValue.str "foo"], mValue.array [mValue.str "end_scenario"]])).engine →
        WireProtocol.responses sampleStepManager sampleEngine after
            (WireProtocol.dispatchAll sampleStepManager sampleEngine (before ++ [q]) (sampleWorld [mValue.str "x", mValue.array [mValue.str "foo"], mValue.array [mValue.str "end_scenario"]])) =
          WireProtocol.responses sampleStepManager sampleEngine after
            (WireProtocol.dispatchAll sampleStepManager sampleEngine before (sampleWorld [mValue.str "x", mValue.array [mValue.str "foo"], mValue.array [mValue.str "end_scenario"]]))) :=
  processStream_one_response_per_request sampleStepManager sampleEngine
    [mValue.str "x", mValue.array [mValue.str "foo"], mValue.array [mValue.str "end_scenario"]]
    (sampleWorld [mValue.str "x", mValue.array [mValue.str "foo"], mValue.array [mValue.str "end_scenario"]]) 5 rfl rfl
    (by
      intro q hq
      simp only [List.mem_cons, List.mem_singleton, List.not_mem_nil, or_false] at hq
      rcases hq with h | h | h <;> (subst h; intro e; cases e))
    (by decide)

end cukebins
